import Mathlib

/-!
# RA-HMC samplers (`src/algorithms/RAHMC.js`, `src/algorithms/RAHMC-Sigmoid.js`)

A shallow embedding of the two registered algorithms.  Numbers are elements of a
linearly ordered field `K` and `Math.exp` is a parameter `exp : K → K`; the
theorems that need facts about the exponential take `K = ℝ` and `exp = Real.exp`.
Vectors are lists.  The two random draws of `step` (`MultivariateNormal.getSample`
and `Math.random`) are explicit arguments `p0` and `u`.
-/

namespace MCMC

set_option linter.unusedSectionVars false

/-! ## Vector operations of the host library -/

namespace Vec

/-- Modelled from the spec: the host's `copy` method of vectors is not part of the two
source files; `copy(v)` is an independent value equal to `v`. -/
def copy {K : Type} (v : List K) : List K := v

/-- Modelled from the spec: the host's `scale` method of vectors is not part of the two
source files; `scale(v, s)` is a new vector, `v` multiplied element-wise by `s`. -/
def scale {K : Type} [Mul K] (v : List K) (s : K) : List K := v.map (fun x => x * s)

/-- Modelled from the spec: the host's `increment` method of vectors is not part of the
two source files; `increment(v, delta)` adds `delta` to `v` element-wise.  The spec
only allows vectors of matching dimension; on other inputs this model truncates. -/
def increment {K : Type} [Add K] (v delta : List K) : List K :=
  List.zipWith (fun x y => x + y) v delta

/-- Modelled from the spec: the host's `norm2` method of vectors is not part of the two
source files; `norm2(v)` is the sum of the squares of the entries. -/
def norm2 {K : Type} [Mul K] [Add K] [Zero K] (v : List K) : K :=
  (v.map (fun x => x * x)).sum

end Vec

/-! ## The sampler object and the visualizer -/

/-- The fields of `self` that `init`, `reset` and `step` read or write.  `steepness`
is set and read by RAHMC-Sigmoid only. -/
structure Self (K : Type) where
  leapfrogSteps : Int
  dt : K
  gamma : K
  steepness : K
  dim : Nat
  chain : List (List K)
  logDensity : List K → K
  gradLogDensity : List K → List K

/-- The objects pushed on `visualizer.queue`, one constructor per `type` string. -/
inductive Event (K : Type) where
  | proposal (proposal : List K) (trajectory : List (List K)) (initialMomentum : List K)
  | accept (proposal : List K)
  | reject (proposal : List K)

/-- The part of the visualizer that `step` touches. -/
structure Visualizer (K : Type) where
  queue : List (Event K)

/-- The working variables of the integration loops: `q`, `p` and `trajectory`. -/
abbrev Work (K : Type) : Type := List K × List K × List (List K)

/-! ## RAHMC.js -/

namespace RAHMC

variable {K : Type} [LinearOrderedField K]

/-- `init` of RAHMC.js. -/
def init (self : Self K) : Self K :=
  { self with leapfrogSteps := 40, dt := 0.1, gamma := 0.5 }

/-- `reset` of RAHMC.js; `sample` is the value of `MultivariateNormal.getSample(self.dim)`. -/
def reset (self : Self K) (sample : List K) : Self K :=
  { self with chain := [sample] }

/-- The helper `conformalLeapfrogStep` of RAHMC.js (lines 40-52); the in-place updates
of `q` and `p` are returned as the new pair. -/
def conformalLeapfrogStep (exp : K → K) (self : Self K) (q p : List K) (gamma : K) :
    List K × List K :=
  let scale := exp (-gamma * self.dt / 2)
  let p := p.map (fun x => x * scale)
  let p := Vec.increment p (Vec.scale (self.gradLogDensity q) (self.dt / 2))
  let q := Vec.increment q (Vec.scale p self.dt)
  let p := Vec.increment p (Vec.scale (self.gradLogDensity q) (self.dt / 2))
  let p := p.map (fun x => x * scale)
  (q, p)

/-- The body shared by the two loops of RAHMC.js (lines 56-57 and 62-63): one sub-step
and a push of the new position on `trajectory`. -/
def loopBody (exp : K → K) (self : Self K) (w : Work K) (gamma : K) : Work K :=
  let qp := conformalLeapfrogStep exp self w.1 w.2.1 gamma
  (qp.1, qp.2, w.2.2 ++ [Vec.copy qp.1])

/-- Lines 32-64 of RAHMC.js: the working copies, the repelling loop and the attracting
loop.  The result is `(q, p, trajectory)` before the momentum flip. -/
def integrate (exp : K → K) (self : Self K) (q0 p0 : List K) : Work K :=
  let q := Vec.copy q0
  let p := Vec.copy p0
  let trajectory := [Vec.copy q]
  let L1 := Int.fdiv self.leapfrogSteps 2
  let L2 := self.leapfrogSteps - L1
  let w := (List.range L1.toNat).foldl (fun w _ => loopBody exp self w (-self.gamma))
    (q, p, trajectory)
  (List.range L2.toNat).foldl (fun w _ => loopBody exp self w self.gamma) w

/-- `step` of RAHMC.js.  `p0` is the momentum draw and `u` the value of `Math.random()`.
On an empty chain `q0` is `undefined` and `q0.copy()` throws: the result is `none`. -/
def step (exp : K → K) (self : Self K) (visualizer : Visualizer K) (p0 : List K) (u : K) :
    Option (Self K × Visualizer K) :=
  match self.chain.getLast? with
  | none => none
  | some q0 =>
    let w := integrate exp self q0 p0
    let q := w.1
    let trajectory := w.2.2
    let p := w.2.1.map (fun x => x * -1)
    let queue := visualizer.queue ++ [Event.proposal q trajectory p0]
    let H0 := -self.logDensity q0 + Vec.norm2 p0 / 2
    let H := -self.logDensity q + Vec.norm2 p / 2
    let logAcceptRatio := -H + H0
    if u < exp logAcceptRatio then
      some ({ self with chain := self.chain ++ [Vec.copy q] },
        { queue := queue ++ [Event.accept q] })
    else
      some ({ self with chain := self.chain ++ [Vec.copy q0] },
        { queue := queue ++ [Event.reject q] })

end RAHMC

/-! ## RAHMC-Sigmoid.js -/

namespace RAHMCSigmoid

variable {K : Type} [LinearOrderedField K]

/-- `init` of RAHMC-Sigmoid.js. -/
def init (self : Self K) : Self K :=
  { self with leapfrogSteps := 40, dt := 0.1, gamma := 0.5, steepness := 10.0 }

/-- `reset` of RAHMC-Sigmoid.js; `sample` is the value of
`MultivariateNormal.getSample(self.dim)`. -/
def reset (self : Self K) (sample : List K) : Self K :=
  { self with chain := [sample] }

/-- The helper `conformalLeapfrogStep` of RAHMC-Sigmoid.js (lines 41-53). -/
def conformalLeapfrogStep (exp : K → K) (self : Self K) (q p : List K) (gamma : K) :
    List K × List K :=
  let scale := exp (-gamma * self.dt / 2)
  let p := p.map (fun x => x * scale)
  let p := Vec.increment p (Vec.scale (self.gradLogDensity q) (self.dt / 2))
  let q := Vec.increment q (Vec.scale p self.dt)
  let p := Vec.increment p (Vec.scale (self.gradLogDensity q) (self.dt / 2))
  let p := p.map (fun x => x * scale)
  (q, p)

/-- Line 38 of RAHMC-Sigmoid.js. -/
def totalTime (self : Self K) : K := self.dt * (self.leapfrogSteps : K)

/-- Lines 58-59 of RAHMC-Sigmoid.js: the friction as a function of `currentTime`. -/
def gammaAt (exp : K → K) (self : Self K) (currentTime : K) : K :=
  let normalizedTime := self.steepness * (currentTime / totalTime self - 0.5)
  self.gamma * (2.0 / (1.0 + exp (-normalizedTime)) - 1.0)

/-- Lines 57-59 of RAHMC-Sigmoid.js: the friction `gamma_t` of loop index `step`. -/
def gamma_t (exp : K → K) (self : Self K) (step : Nat) : K :=
  let currentTime := (step : K) * self.dt
  gammaAt exp self currentTime

/-- The loop body of RAHMC-Sigmoid.js (lines 57-62). -/
def loopBody (exp : K → K) (self : Self K) (w : Work K) (step : Nat) : Work K :=
  let qp := conformalLeapfrogStep exp self w.1 w.2.1 (gamma_t exp self step)
  (qp.1, qp.2, w.2.2 ++ [Vec.copy qp.1])

/-- Lines 34-63 of RAHMC-Sigmoid.js: the working copies and the loop.  The result is
`(q, p, trajectory)` before the momentum flip. -/
def integrate (exp : K → K) (self : Self K) (q0 p0 : List K) : Work K :=
  let q := Vec.copy q0
  let p := Vec.copy p0
  let trajectory := [Vec.copy q]
  (List.range self.leapfrogSteps.toNat).foldl (fun w step => loopBody exp self w step)
    (q, p, trajectory)

/-- `step` of RAHMC-Sigmoid.js.  `p0` is the momentum draw and `u` the value of
`Math.random()`.  On an empty chain `q0.copy()` throws: the result is `none`. -/
def step (exp : K → K) (self : Self K) (visualizer : Visualizer K) (p0 : List K) (u : K) :
    Option (Self K × Visualizer K) :=
  match self.chain.getLast? with
  | none => none
  | some q0 =>
    let w := integrate exp self q0 p0
    let q := w.1
    let trajectory := w.2.2
    let p := w.2.1.map (fun x => x * -1)
    let queue := visualizer.queue ++ [Event.proposal q trajectory p0]
    let H0 := -self.logDensity q0 + Vec.norm2 p0 / 2
    let H := -self.logDensity q + Vec.norm2 p / 2
    let logAcceptRatio := -H + H0
    if u < exp logAcceptRatio then
      some ({ self with chain := self.chain ++ [Vec.copy q] },
        { queue := queue ++ [Event.accept q] })
    else
      some ({ self with chain := self.chain ++ [Vec.copy q0] },
        { queue := queue ++ [Event.reject q] })

end RAHMCSigmoid

/-! ## Auxiliary notions used to state the properties -/

variable {K : Type} [LinearOrderedField K]

/-- Runs the sub-step primitive once for each friction of `gs`, in order, on `(q, p)`. -/
def runFrictions (exp : K → K) (self : Self K) (gs : List K) (qp : List K × List K) :
    List K × List K :=
  gs.foldl (fun qp g => RAHMC.conformalLeapfrogStep exp self qp.1 qp.2 g) qp

/-- The frictions passed to `conformalLeapfrogStep` by the two loops of RAHMC.js, in
call order. -/
def RAHMC.frictions (self : Self K) : List K :=
  (List.range (Int.fdiv self.leapfrogSteps 2).toNat).map (fun _ => -self.gamma) ++
  (List.range (self.leapfrogSteps - Int.fdiv self.leapfrogSteps 2).toNat).map
    (fun _ => self.gamma)

/-- The frictions passed to `conformalLeapfrogStep` by the loop of RAHMC-Sigmoid.js, in
call order. -/
def RAHMCSigmoid.frictions (exp : K → K) (self : Self K) : List K :=
  (List.range self.leapfrogSteps.toNat).map (fun step => RAHMCSigmoid.gamma_t exp self step)

/-- Runs the loop body of RAHMC.js once for each friction of `gs`, in order. -/
def runWork (exp : K → K) (self : Self K) (gs : List K) (w : Work K) : Work K :=
  gs.foldl (fun w g => RAHMC.loopBody exp self w g) w

/-- Successive calls of a `step` function, one per pair of draws `(p0, u)`; the host
calls `step` again and again on the same sampler and visualizer. -/
def runSteps (stepFn : Self K → Visualizer K → List K → K → Option (Self K × Visualizer K))
    (self : Self K) (visualizer : Visualizer K) :
    List (List K × K) → Option (Self K × Visualizer K)
  | [] => some (self, visualizer)
  | (p0, u) :: rest =>
    match stepFn self visualizer p0 u with
    | none => none
    | some r => runSteps stepFn r.1 r.2 rest

/-- One step of the plain leapfrog integrator, in the words of the spec:
`p += grad(q)*dt/2; q += p*dt; p += grad(q)*dt/2`. -/
def plainLeapfrogStep (self : Self K) (q p : List K) : List K × List K :=
  let p := Vec.increment p (Vec.scale (self.gradLogDensity q) (self.dt / 2))
  let q := Vec.increment q (Vec.scale p self.dt)
  let p := Vec.increment p (Vec.scale (self.gradLogDensity q) (self.dt / 2))
  (q, p)

/-- The plain leapfrog integrator repeated `n` times from `(q, p)`, each new position
recorded on the trajectory. -/
def plainLeapfrog (self : Self K) : Nat → Work K → Work K
  | 0, w => w
  | n + 1, w =>
    let qp := plainLeapfrogStep self w.1 w.2.1
    plainLeapfrog self n (qp.1, qp.2, w.2.2 ++ [qp.1])

/-- The target of the spec's scenario: dimension 1, standard normal, one sub-step of
size 0.1 without friction, chain `[[0]]`. -/
def scenario (K : Type) [LinearOrderedField K] : Self K where
  leapfrogSteps := 1
  dt := 0.1
  gamma := 0
  steepness := 10.0
  dim := 1
  chain := [[0]]
  logDensity := fun q => -(Vec.norm2 q) / 2
  gradLogDensity := fun q => q.map (fun x => -x)

/-- The scenario with friction: `dt = 1` and `gamma = 2`. -/
def frictionScenario (K : Type) [LinearOrderedField K] : Self K :=
  { scenario K with dt := 1, gamma := 2 }

/-- Lines 32-67 of RAHMC.js as a map of `(q0, p0)`: run all sub-steps, then flip the
momentum.  The result is the pair `(q, p)` used in the acceptance test. -/
def RAHMC.proposal (exp : K → K) (self : Self K) (qp : List K × List K) :
    List K × List K :=
  ((RAHMC.integrate exp self qp.1 qp.2).1,
    (RAHMC.integrate exp self qp.1 qp.2).2.1.map (fun x => x * -1))

/-- The values of a JS number that matter for a density evaluation: a finite value, or
one of `Infinity`, `-Infinity` and `NaN`.  Rounding and overflow of finite values are
not modelled. -/
inductive JSNum (K : Type) where
  | fin (x : K)
  | posInf
  | negInf
  | nan

namespace JSNum

/-- Unary minus of JS numbers. -/
def neg : JSNum K → JSNum K
  | fin x => fin (-x)
  | posInf => negInf
  | negInf => posInf
  | nan => nan

/-- Addition of JS numbers: `NaN` is absorbing and `Infinity + -Infinity` is `NaN`. -/
def add : JSNum K → JSNum K → JSNum K
  | fin x, fin y => fin (x + y)
  | fin _, posInf => posInf
  | fin _, negInf => negInf
  | fin _, nan => nan
  | posInf, fin _ => posInf
  | posInf, posInf => posInf
  | posInf, negInf => nan
  | posInf, nan => nan
  | negInf, fin _ => negInf
  | negInf, posInf => nan
  | negInf, negInf => negInf
  | negInf, nan => nan
  | nan, _ => nan

/-- `Math.exp` on JS numbers: `exp(-Infinity) = 0`, `exp(Infinity) = Infinity`,
`exp(NaN) = NaN`. -/
def exp (e : K → K) : JSNum K → JSNum K
  | fin x => fin (e x)
  | posInf => posInf
  | negInf => fin 0
  | nan => nan

/-- The comparison `<` of JS numbers: false as soon as one side is `NaN`. -/
def lt : JSNum K → JSNum K → Bool
  | fin x, fin y => decide (x < y)
  | fin _, posInf => true
  | negInf, fin _ => true
  | negInf, posInf => true
  | _, _ => false

end JSNum

/-- `step` of RAHMC.js (lines 27-90) when the values returned by `self.logDensity` are JS
numbers that may be non-finite: `logDensity` takes the place of `self.logDensity`, the
vectors and the draws are finite as in `step`. -/
def RAHMC.stepExt (exp : K → K) (self : Self K) (logDensity : List K → JSNum K)
    (visualizer : Visualizer K) (p0 : List K) (u : K) : Option (Self K × Visualizer K) :=
  match self.chain.getLast? with
  | none => none
  | some q0 =>
    let w := RAHMC.integrate exp self q0 p0
    let q := w.1
    let trajectory := w.2.2
    let p := w.2.1.map (fun x => x * -1)
    let queue := visualizer.queue ++ [Event.proposal q trajectory p0]
    let H0 := JSNum.add (JSNum.neg (logDensity q0)) (JSNum.fin (Vec.norm2 p0 / 2))
    let H := JSNum.add (JSNum.neg (logDensity q)) (JSNum.fin (Vec.norm2 p / 2))
    let logAcceptRatio := JSNum.add (JSNum.neg H) H0
    if JSNum.lt (JSNum.fin u) (JSNum.exp exp logAcceptRatio) = true then
      some ({ self with chain := self.chain ++ [Vec.copy q] },
        { queue := queue ++ [Event.accept q] })
    else
      some ({ self with chain := self.chain ++ [Vec.copy q0] },
        { queue := queue ++ [Event.reject q] })

/-- `step` of RAHMC-Sigmoid.js (lines 29-89) when the values returned by
`self.logDensity` are JS numbers that may be non-finite. -/
def RAHMCSigmoid.stepExt (exp : K → K) (self : Self K) (logDensity : List K → JSNum K)
    (visualizer : Visualizer K) (p0 : List K) (u : K) : Option (Self K × Visualizer K) :=
  match self.chain.getLast? with
  | none => none
  | some q0 =>
    let w := RAHMCSigmoid.integrate exp self q0 p0
    let q := w.1
    let trajectory := w.2.2
    let p := w.2.1.map (fun x => x * -1)
    let queue := visualizer.queue ++ [Event.proposal q trajectory p0]
    let H0 := JSNum.add (JSNum.neg (logDensity q0)) (JSNum.fin (Vec.norm2 p0 / 2))
    let H := JSNum.add (JSNum.neg (logDensity q)) (JSNum.fin (Vec.norm2 p / 2))
    let logAcceptRatio := JSNum.add (JSNum.neg H) H0
    if JSNum.lt (JSNum.fin u) (JSNum.exp exp logAcceptRatio) = true then
      some ({ self with chain := self.chain ++ [Vec.copy q] },
        { queue := queue ++ [Event.accept q] })
    else
      some ({ self with chain := self.chain ++ [Vec.copy q0] },
        { queue := queue ++ [Event.reject q] })

/-- The scenario's target restricted to the half-line `q > 0`: the log-density is
`-Infinity` at `q <= 0` and that of the standard normal elsewhere. -/
def halfLineDensity (q : List K) : JSNum K :=
  if q.headD 0 ≤ 0 then JSNum.negInf else JSNum.fin (-(Vec.norm2 q) / 2)

/-- A density that is infinite on the half-line `q > 0`: the log-density is `Infinity`
at `q > 0` and that of the standard normal elsewhere. -/
def spikeDensity (q : List K) : JSNum K :=
  if q.headD 0 ≤ 0 then JSNum.fin (-(Vec.norm2 q) / 2) else JSNum.posInf

/-- Lines 78-80 of RAHMC.js, after lines 32-67: the values `H0`, `H` and `logAcceptRatio`
that `step` computes for the last chain state `q0` and the momentum draw `p0`. -/
def RAHMC.energies (exp : K → K) (self : Self K) (q0 p0 : List K) : K × K × K :=
  let w := RAHMC.integrate exp self q0 p0
  let q := w.1
  let p := w.2.1.map (fun x => x * -1)
  let H0 := -self.logDensity q0 + Vec.norm2 p0 / 2
  let H := -self.logDensity q + Vec.norm2 p / 2
  let logAcceptRatio := -H + H0
  (H0, H, logAcceptRatio)

/-- Lines 77-79 of RAHMC-Sigmoid.js, after lines 34-66: the values `H0`, `H` and
`logAcceptRatio` that `step` computes for the last chain state `q0` and the momentum
draw `p0`. -/
def RAHMCSigmoid.energies (exp : K → K) (self : Self K) (q0 p0 : List K) : K × K × K :=
  let w := RAHMCSigmoid.integrate exp self q0 p0
  let q := w.1
  let p := w.2.1.map (fun x => x * -1)
  let H0 := -self.logDensity q0 + Vec.norm2 p0 / 2
  let H := -self.logDensity q + Vec.norm2 p / 2
  let logAcceptRatio := -H + H0
  (H0, H, logAcceptRatio)

/-! ## Basic facts -/

theorem substep_eq (exp : K → K) (self : Self K) (q p : List K) (g : K) :
    RAHMCSigmoid.conformalLeapfrogStep exp self q p g =
      RAHMC.conformalLeapfrogStep exp self q p g := rfl

theorem fdiv_two (L : Int) : Int.fdiv L 2 = L / 2 :=
  Int.fdiv_eq_ediv L (by decide)

theorem split_integrate_eq_runWork (exp : K → K) (self : Self K) (q0 p0 : List K) :
    RAHMC.integrate exp self q0 p0 =
      runWork exp self (RAHMC.frictions self) (q0, p0, [q0]) := by
  simp only [RAHMC.integrate, runWork, RAHMC.frictions, List.foldl_append, List.foldl_map,
    Vec.copy]

theorem sigmoid_integrate_eq_runWork (exp : K → K) (self : Self K) (q0 p0 : List K) :
    RAHMCSigmoid.integrate exp self q0 p0 =
      runWork exp self (RAHMCSigmoid.frictions exp self) (q0, p0, [q0]) := by
  simp only [RAHMCSigmoid.integrate, runWork, RAHMCSigmoid.frictions, List.foldl_map,
    Vec.copy]
  rfl

theorem split_frictions_eq (self : Self K) :
    RAHMC.frictions self =
      List.replicate (self.leapfrogSteps / 2).toNat (-self.gamma) ++
      List.replicate (self.leapfrogSteps - self.leapfrogSteps / 2).toNat self.gamma := by
  simp [RAHMC.frictions, fdiv_two, List.map_const']

theorem increment_scale (v w : List K) (c : K) :
    Vec.increment v (Vec.scale w c) = List.zipWith (fun x y => x + y * c) v w := by
  simp only [Vec.increment, Vec.scale, List.zipWith_map_right]

theorem substep_formula (exp : K → K) (self : Self K) (q p : List K) (g : K) :
    RAHMC.conformalLeapfrogStep exp self q p g =
      (List.zipWith (fun x y => x + y * self.dt) q
        (List.zipWith (fun x d => exp (-g * self.dt / 2) * x + d * (self.dt / 2)) p
          (self.gradLogDensity q)),
       List.zipWith (fun y d => exp (-g * self.dt / 2) * (y + d * (self.dt / 2)))
        (List.zipWith (fun x d => exp (-g * self.dt / 2) * x + d * (self.dt / 2)) p
          (self.gradLogDensity q))
        (self.gradLogDensity (List.zipWith (fun x y => x + y * self.dt) q
          (List.zipWith (fun x d => exp (-g * self.dt / 2) * x + d * (self.dt / 2)) p
            (self.gradLogDensity q))))) := by
  have hp : Vec.increment (p.map (fun x => x * exp (-g * self.dt / 2)))
      (Vec.scale (self.gradLogDensity q) (self.dt / 2)) =
      List.zipWith (fun x d => exp (-g * self.dt / 2) * x + d * (self.dt / 2)) p
          (self.gradLogDensity q) := by
    simp only [increment_scale, List.zipWith_map_left, mul_comm (exp (-g * self.dt / 2))]
  simp only [RAHMC.conformalLeapfrogStep]
  rw [hp, increment_scale, increment_scale, List.map_zipWith]
  simp only [mul_comm (exp (-g * self.dt / 2))]

theorem substep_reverse (self : Self ℝ) (d : Nat)
    (hG : ∀ x : List ℝ, x.length = d → (self.gradLogDensity x).length = d)
    (q p : List ℝ) (hq : q.length = d) (hp : p.length = d) (g : ℝ) :
    (RAHMC.conformalLeapfrogStep Real.exp self q p g).1.length = d ∧
    (RAHMC.conformalLeapfrogStep Real.exp self q p g).2.length = d ∧
    RAHMC.conformalLeapfrogStep Real.exp self
      (RAHMC.conformalLeapfrogStep Real.exp self q p g).1
      ((RAHMC.conformalLeapfrogStep Real.exp self q p g).2.map (fun x => -x)) (-g) =
      (q, p.map (fun x => -x)) := by
  have hst : Real.exp (- -g * self.dt / 2) * Real.exp (-g * self.dt / 2) = 1 := by
    rw [← Real.exp_add]
    have h0 : - -g * self.dt / 2 + -g * self.dt / 2 = 0 := by ring
    rw [h0, Real.exp_zero]
  rw [substep_formula Real.exp self q p g]
  set s := Real.exp (-g * self.dt / 2) with hs
  set ph := List.zipWith (fun x d => s * x + d * (self.dt / 2)) p (self.gradLogDensity q)
    with hph
  set q' := List.zipWith (fun x y => x + y * self.dt) q ph with hq'
  have lph : ph.length = d := by simp [hph, hp, hG q hq]
  have lq' : q'.length = d := by simp [hq', hq, lph]
  have lG : (self.gradLogDensity q').length = d := hG q' lq'
  refine ⟨lq', by simp [lph, lG], ?_⟩
  rw [substep_formula Real.exp self]
  set t := Real.exp (- -g * self.dt / 2) with ht
  have e1 : List.zipWith (fun x d => t * x + d * (self.dt / 2))
      (List.map (fun x => -x)
        (List.zipWith (fun y d => s * (y + d * (self.dt / 2))) ph (self.gradLogDensity q')))
      (self.gradLogDensity q') = ph.map (fun x => -x) := by
    apply List.ext_getElem
    · simp [lph, lG]
    · intro i h1 h2
      have b1 : i < ph.length := by simpa using h2
      have b2 : i < (self.gradLogDensity q').length := by omega
      simp only [List.getElem_zipWith, List.getElem_map]
      linear_combination (-ph[i] - (self.gradLogDensity q')[i] * (self.dt / 2)) * hst
  rw [e1]
  have e2 : List.zipWith (fun x y => x + y * self.dt) q' (ph.map (fun x => -x)) = q := by
    apply List.ext_getElem
    · simp [lq', lph, hq]
    · intro i h1 h2
      simp only [hq', List.getElem_zipWith, List.getElem_map]
      ring
  rw [e2]
  congr 1
  apply List.ext_getElem
  · simp [lph, hG q hq, hp]
  · intro i h1 h2
    have b1 : i < p.length := by simpa using h2
    simp only [hph, List.getElem_zipWith, List.getElem_map]
    linear_combination (-p[i]) * hst

theorem scenario_integrate (exp : K → K) (h0 : exp 0 = 1) :
    RAHMC.integrate exp (scenario K) [0] [1] = ([1/10], [199/200], [[0], [1/10]]) := by
  simp [RAHMC.integrate, scenario, fdiv_two, RAHMC.loopBody, RAHMC.conformalLeapfrogStep,
    Vec.copy, Vec.increment, Vec.scale, h0, List.range_succ]
  norm_num

theorem split_frictions_one (self : Self K) (h : self.leapfrogSteps = 1) :
    RAHMC.frictions self = [self.gamma] := by
  rw [split_frictions_eq, h]
  rfl

theorem sigmoid_frictions_one (exp : K → K) (self : Self K) (h : self.leapfrogSteps = 1) :
    RAHMCSigmoid.frictions exp self = [RAHMCSigmoid.gamma_t exp self 0] := by
  rw [RAHMCSigmoid.frictions, h]
  rfl

theorem split_step_energies (exp : K → K) (self : Self K) (visualizer : Visualizer K)
    (q0 p0 : List K) (u : K) (h : self.chain.getLast? = some q0) :
    RAHMC.step exp self visualizer p0 u =
      if u < exp (RAHMC.energies exp self q0 p0).2.2 then
        some ({ self with chain := self.chain ++ [(RAHMC.integrate exp self q0 p0).1] },
          { queue := visualizer.queue ++
              [Event.proposal (RAHMC.integrate exp self q0 p0).1
                (RAHMC.integrate exp self q0 p0).2.2 p0,
               Event.accept (RAHMC.integrate exp self q0 p0).1] })
      else
        some ({ self with chain := self.chain ++ [q0] },
          { queue := visualizer.queue ++
              [Event.proposal (RAHMC.integrate exp self q0 p0).1
                (RAHMC.integrate exp self q0 p0).2.2 p0,
               Event.reject (RAHMC.integrate exp self q0 p0).1] }) := by
  simp only [RAHMC.step, RAHMC.energies, h, Vec.copy, List.append_assoc,
    List.singleton_append]

theorem sigmoid_step_energies (exp : K → K) (self : Self K) (visualizer : Visualizer K)
    (q0 p0 : List K) (u : K) (h : self.chain.getLast? = some q0) :
    RAHMCSigmoid.step exp self visualizer p0 u =
      if u < exp (RAHMCSigmoid.energies exp self q0 p0).2.2 then
        some ({ self with chain := self.chain ++ [(RAHMCSigmoid.integrate exp self q0 p0).1] },
          { queue := visualizer.queue ++
              [Event.proposal (RAHMCSigmoid.integrate exp self q0 p0).1
                (RAHMCSigmoid.integrate exp self q0 p0).2.2 p0,
               Event.accept (RAHMCSigmoid.integrate exp self q0 p0).1] })
      else
        some ({ self with chain := self.chain ++ [q0] },
          { queue := visualizer.queue ++
              [Event.proposal (RAHMCSigmoid.integrate exp self q0 p0).1
                (RAHMCSigmoid.integrate exp self q0 p0).2.2 p0,
               Event.reject (RAHMCSigmoid.integrate exp self q0 p0).1] }) := by
  simp only [RAHMCSigmoid.step, RAHMCSigmoid.energies, h, Vec.copy, List.append_assoc,
    List.singleton_append]

theorem scenario_energies :
    RAHMC.energies Real.exp (scenario ℝ) [0] [1] = (0.5, 0.5000125, -0.0000125) := by
  simp only [RAHMC.energies, scenario_integrate Real.exp Real.exp_zero]
  simp [scenario, Vec.norm2]
  norm_num

/-! ## C1 -/

/-- C1: one call of `conformalLeapfrogStep`, in RAHMC.js and in RAHMC-Sigmoid.js, turns
`(q, p)` into `(q', p')` with `s = exp(-g*dt/2)`, `p_half = s*p + grad(q)*(dt/2)`,
`q' = q + p_half*dt` and `p' = s*(p_half + grad(q')*(dt/2))`, entry by entry; the second
gradient is taken at `q'`, and the two helpers are the same function. -/
theorem conformalLeapfrogStep_spec (exp : K → K) (self : Self K) (q p : List K) (g : K) :
    let s := exp (-g * self.dt / 2)
    let p_half := List.zipWith (fun x d => s * x + d * (self.dt / 2)) p (self.gradLogDensity q)
    let q' := List.zipWith (fun x y => x + y * self.dt) q p_half
    let p' := List.zipWith (fun y d => s * (y + d * (self.dt / 2))) p_half
      (self.gradLogDensity q')
    RAHMC.conformalLeapfrogStep exp self q p g = (q', p') ∧
    RAHMCSigmoid.conformalLeapfrogStep exp self q p g = (q', p') ∧
    (RAHMCSigmoid.conformalLeapfrogStep : (K → K) → Self K → List K → List K → K →
      List K × List K) = RAHMC.conformalLeapfrogStep := by
  intro s p_half q' p'
  exact ⟨substep_formula exp self q p g, substep_formula exp self q p g, rfl⟩

/-! ## C2 -/

/-- C2: in the RAHMC (Split) step, with `leapfrogSteps = 2k` the sub-steps run are `k`
with friction `-gamma` followed by `k` with `+gamma`, with `leapfrogSteps = 2k+1` they
are `k` with `-gamma` followed by `k+1` with `+gamma`; the repelling sub-steps all come
first and the number of sub-steps is `leapfrogSteps`. -/
theorem split_schedule (exp : K → K) (self : Self K) (q0 p0 : List K) (k : Nat) :
    (self.leapfrogSteps = 2 * (k : Int) →
      RAHMC.frictions self =
        List.replicate k (-self.gamma) ++ List.replicate k self.gamma ∧
      RAHMC.integrate exp self q0 p0 =
        runWork exp self (List.replicate k (-self.gamma) ++ List.replicate k self.gamma)
          (q0, p0, [q0])) ∧
    (self.leapfrogSteps = 2 * (k : Int) + 1 →
      RAHMC.frictions self =
        List.replicate k (-self.gamma) ++ List.replicate (k + 1) self.gamma ∧
      RAHMC.integrate exp self q0 p0 =
        runWork exp self
          (List.replicate k (-self.gamma) ++ List.replicate (k + 1) self.gamma)
          (q0, p0, [q0])) ∧
    (RAHMC.frictions self).length = self.leapfrogSteps.toNat := by
  refine ⟨fun h => ?_, fun h => ?_, ?_⟩
  · have e : RAHMC.frictions self =
        List.replicate k (-self.gamma) ++ List.replicate k self.gamma := by
      rw [split_frictions_eq, h]
      have h1 : (2 * (k : Int) / 2).toNat = k := by omega
      have h2 : (2 * (k : Int) - 2 * (k : Int) / 2).toNat = k := by omega
      rw [h1, h2]
    exact ⟨e, by rw [split_integrate_eq_runWork, e]⟩
  · have e : RAHMC.frictions self =
        List.replicate k (-self.gamma) ++ List.replicate (k + 1) self.gamma := by
      rw [split_frictions_eq, h]
      have h1 : ((2 * (k : Int) + 1) / 2).toNat = k := by omega
      have h2 : (2 * (k : Int) + 1 - (2 * (k : Int) + 1) / 2).toNat = k + 1 := by omega
      rw [h1, h2]
    exact ⟨e, by rw [split_integrate_eq_runWork, e]⟩
  · rw [split_frictions_eq]
    simp only [List.length_append, List.length_replicate]
    omega

/-- Witness of C2: five leapfrog steps are two repelling sub-steps followed by three
attracting ones, four are two and two. -/
theorem split_schedule_witness :
    ((5 : Int) = 2 * ((2 : Nat) : Int) + 1 ∧
      RAHMC.frictions { scenario ℚ with leapfrogSteps := 5, gamma := 3 } =
        [-3, -3, 3, 3, 3]) ∧
    ((4 : Int) = 2 * ((2 : Nat) : Int) ∧
      RAHMC.frictions { scenario ℚ with leapfrogSteps := 4, gamma := 3 } =
        [-3, -3, 3, 3]) :=
  ⟨⟨by decide, ((split_schedule (fun _ => 1)
      { scenario ℚ with leapfrogSteps := 5, gamma := 3 } [0] [1] 2).2.1 (by decide)).1⟩,
   ⟨by decide, ((split_schedule (fun _ => 1)
      { scenario ℚ with leapfrogSteps := 4, gamma := 3 } [0] [1] 2).1 (by decide)).1⟩⟩

/-! ## C3 -/

/-- C3: in both variants, with `q0` the last chain state, `p0` the drawn momentum, `q` the
end-of-trajectory position, `p` the flipped momentum and `u` the uniform draw,
`H0 = -logDensity(q0) + norm2(p0)/2`, `H = -logDensity(q) + norm2(p)/2`,
`logAcceptRatio = H0 - H`, and `step` appends `q` when `u < exp(logAcceptRatio)` and `q0`
otherwise; when `q` differs from `q0` the appended state is `q` if and only if
`u < exp(logAcceptRatio)`.  The appended state is the same for any other chain ending in
`q0` and any other visualizer: it depends on `q0`, `p0`, `u` and the configuration only. -/
theorem acceptance_rule (exp : K → K) (self : Self K) (visualizer visualizer' : Visualizer K)
    (chain' : List (List K)) (q0 p0 : List K) (u : K)
    (h : self.chain.getLast? = some q0) (h' : chain'.getLast? = some q0) :
    (let q := (RAHMC.integrate exp self q0 p0).1
     let p := (RAHMC.integrate exp self q0 p0).2.1.map (fun x => -x)
     let H0 := -self.logDensity q0 + Vec.norm2 p0 / 2
     let H := -self.logDensity q + Vec.norm2 p / 2
     let logAcceptRatio := H0 - H
     let next := if u < exp logAcceptRatio then q else q0
     (q ≠ q0 → (next = q ↔ u < exp logAcceptRatio)) ∧
     (∃ v, RAHMC.step exp self visualizer p0 u =
        some ({ self with chain := self.chain ++ [next] }, v)) ∧
     (∃ v, RAHMC.step exp { self with chain := chain' } visualizer' p0 u =
        some ({ self with chain := chain' ++ [next] }, v))) ∧
    (let q := (RAHMCSigmoid.integrate exp self q0 p0).1
     let p := (RAHMCSigmoid.integrate exp self q0 p0).2.1.map (fun x => -x)
     let H0 := -self.logDensity q0 + Vec.norm2 p0 / 2
     let H := -self.logDensity q + Vec.norm2 p / 2
     let logAcceptRatio := H0 - H
     let next := if u < exp logAcceptRatio then q else q0
     (q ≠ q0 → (next = q ↔ u < exp logAcceptRatio)) ∧
     (∃ v, RAHMCSigmoid.step exp self visualizer p0 u =
        some ({ self with chain := self.chain ++ [next] }, v)) ∧
     (∃ v, RAHMCSigmoid.step exp { self with chain := chain' } visualizer' p0 u =
        some ({ self with chain := chain' ++ [next] }, v))) := by
  have e1 : RAHMC.integrate exp { self with chain := chain' } q0 p0 =
      RAHMC.integrate exp self q0 p0 := rfl
  have e2 : RAHMCSigmoid.integrate exp { self with chain := chain' } q0 p0 =
      RAHMCSigmoid.integrate exp self q0 p0 := rfl
  refine ⟨?_, ?_⟩
  · intro q p H0 H logAcceptRatio next
    have hl : -H + H0 = logAcceptRatio := neg_add_eq_sub H H0
    refine ⟨?_, ?_, ?_⟩
    · intro hne
      by_cases hu : u < exp logAcceptRatio
      · simp only [next, if_pos hu, hu]
      · simp only [next, if_neg hu, hu, iff_false]
        exact fun e => hne e.symm
    · simp only [RAHMC.step, h, mul_neg_one, Vec.copy]
      rw [hl]
      by_cases hu : u < exp logAcceptRatio
      · exact ⟨_, by simp only [next, if_pos hu]; rfl⟩
      · exact ⟨_, by simp only [next, if_neg hu]; rfl⟩
    · simp only [RAHMC.step, h', e1, mul_neg_one, Vec.copy]
      rw [hl]
      by_cases hu : u < exp logAcceptRatio
      · exact ⟨_, by simp only [next, if_pos hu]; rfl⟩
      · exact ⟨_, by simp only [next, if_neg hu]; rfl⟩
  · intro q p H0 H logAcceptRatio next
    have hl : -H + H0 = logAcceptRatio := neg_add_eq_sub H H0
    refine ⟨?_, ?_, ?_⟩
    · intro hne
      by_cases hu : u < exp logAcceptRatio
      · simp only [next, if_pos hu, hu]
      · simp only [next, if_neg hu, hu, iff_false]
        exact fun e => hne e.symm
    · simp only [RAHMCSigmoid.step, h, mul_neg_one, Vec.copy]
      rw [hl]
      by_cases hu : u < exp logAcceptRatio
      · exact ⟨_, by simp only [next, if_pos hu]; rfl⟩
      · exact ⟨_, by simp only [next, if_neg hu]; rfl⟩
    · simp only [RAHMCSigmoid.step, h', e2, mul_neg_one, Vec.copy]
      rw [hl]
      by_cases hu : u < exp logAcceptRatio
      · exact ⟨_, by simp only [next, if_pos hu]; rfl⟩
      · exact ⟨_, by simp only [next, if_neg hu]; rfl⟩

/-- Witness of C3: the scenario, with the uniform draw `u = 0`; the proposal `[0.1]` is
appended, also to another chain ending in `[0]`. -/
theorem acceptance_rule_witness :
    (scenario ℝ).chain.getLast? = some [0] ∧
    ([[1], [0]] : List (List ℝ)).getLast? = some [0] ∧
    (∃ v, RAHMC.step Real.exp (scenario ℝ) { queue := [] } [1] 0 =
      some ({ scenario ℝ with chain := (scenario ℝ).chain ++ [[1 / 10]] }, v)) ∧
    (∃ v, RAHMC.step Real.exp { scenario ℝ with chain := [[1], [0]] } { queue := [] } [1] 0 =
      some ({ scenario ℝ with chain := [[1], [0]] ++ [[1 / 10]] }, v)) := by
  have h := (acceptance_rule Real.exp (scenario ℝ) { queue := [] } { queue := [] }
    [[1], [0]] [0] [1] 0 rfl rfl).1
  simp only [if_pos (Real.exp_pos _), scenario_integrate Real.exp Real.exp_zero] at h
  exact ⟨rfl, rfl, h.2.1, h.2.2⟩

/-! ## C4 -/

theorem split_step_appends (exp : K → K) (self : Self K) (visualizer : Visualizer K)
    (p0 : List K) (u : K) (h : self.chain ≠ []) :
    ∃ x v, RAHMC.step exp self visualizer p0 u =
      some ({ self with chain := self.chain ++ [x] }, v) := by
  obtain ⟨q0, hq0⟩ : ∃ q0, self.chain.getLast? = some q0 :=
    ⟨self.chain.getLast h, List.getLast?_eq_getLast _ h⟩
  simp only [RAHMC.step, hq0]
  split_ifs
  · exact ⟨_, _, rfl⟩
  · exact ⟨_, _, rfl⟩

theorem sigmoid_step_appends (exp : K → K) (self : Self K) (visualizer : Visualizer K)
    (p0 : List K) (u : K) (h : self.chain ≠ []) :
    ∃ x v, RAHMCSigmoid.step exp self visualizer p0 u =
      some ({ self with chain := self.chain ++ [x] }, v) := by
  obtain ⟨q0, hq0⟩ : ∃ q0, self.chain.getLast? = some q0 :=
    ⟨self.chain.getLast h, List.getLast?_eq_getLast _ h⟩
  simp only [RAHMCSigmoid.step, hq0]
  split_ifs
  · exact ⟨_, _, rfl⟩
  · exact ⟨_, _, rfl⟩

theorem runSteps_appends
    (stepFn : Self K → Visualizer K → List K → K → Option (Self K × Visualizer K))
    (hstep : ∀ (self : Self K) (visualizer : Visualizer K) (p0 : List K) (u : K),
      self.chain ≠ [] → ∃ x v, stepFn self visualizer p0 u =
        some ({ self with chain := self.chain ++ [x] }, v))
    (draws : List (List K × K)) :
    ∀ (self : Self K) (visualizer : Visualizer K), self.chain ≠ [] →
      ∃ r xs, runSteps stepFn self visualizer draws = some r ∧
        r.1.chain = self.chain ++ xs ∧ xs.length = draws.length := by
  induction draws with
  | nil => intro self visualizer _; exact ⟨_, [], rfl, by simp, rfl⟩
  | cons d rest ih =>
    intro self visualizer h
    obtain ⟨x, v, hx⟩ := hstep self visualizer d.1 d.2 h
    obtain ⟨r, xs, hr, hc, hl⟩ := ih { self with chain := self.chain ++ [x] } v (by simp)
    refine ⟨r, x :: xs, ?_, ?_, by simp [hl]⟩
    · obtain ⟨p0, u⟩ := d
      simp only [runSteps, hx]
      exact hr
    · simpa using hc

/-- C4: `reset` produces a chain of length exactly 1; every call of `step` on a
non-empty chain, in either variant, accepted or not, turns the chain `c` into `c ++ [x]`
for a single state `x`; after `n` calls of `step` following `reset` the chain has length
`n + 1`, begins with the reset sample and has only grown at the end. -/
theorem chain_growth (exp : K → K) (self : Self K) (visualizer : Visualizer K)
    (sample p0 : List K) (u : K) (draws : List (List K × K)) :
    (RAHMC.reset self sample).chain.length = 1 ∧
    (RAHMCSigmoid.reset self sample).chain.length = 1 ∧
    (self.chain ≠ [] →
      (∃ x v, RAHMC.step exp self visualizer p0 u =
        some ({ self with chain := self.chain ++ [x] }, v)) ∧
      (∃ x v, RAHMCSigmoid.step exp self visualizer p0 u =
        some ({ self with chain := self.chain ++ [x] }, v))) ∧
    (∃ r xs, runSteps (RAHMC.step exp) (RAHMC.reset self sample) visualizer draws = some r ∧
      r.1.chain = sample :: xs ∧ r.1.chain.length = draws.length + 1 ∧
      r.1.chain.head? = some sample) ∧
    (∃ r xs, runSteps (RAHMCSigmoid.step exp) (RAHMCSigmoid.reset self sample) visualizer
        draws = some r ∧
      r.1.chain = sample :: xs ∧ r.1.chain.length = draws.length + 1 ∧
      r.1.chain.head? = some sample) := by
  refine ⟨rfl, rfl, fun h => ⟨split_step_appends exp self visualizer p0 u h,
    sigmoid_step_appends exp self visualizer p0 u h⟩, ?_, ?_⟩
  · obtain ⟨r, xs, hr, hc, hl⟩ := runSteps_appends (RAHMC.step exp)
      (split_step_appends exp) draws (RAHMC.reset self sample) visualizer
      (by simp [RAHMC.reset])
    have hc' : r.1.chain = sample :: xs := by simpa [RAHMC.reset] using hc
    exact ⟨r, xs, hr, hc', by simp [hc', hl], by simp [hc']⟩
  · obtain ⟨r, xs, hr, hc, hl⟩ := runSteps_appends (RAHMCSigmoid.step exp)
      (sigmoid_step_appends exp) draws (RAHMCSigmoid.reset self sample) visualizer
      (by simp [RAHMCSigmoid.reset])
    have hc' : r.1.chain = sample :: xs := by simpa [RAHMCSigmoid.reset] using hc
    exact ⟨r, xs, hr, hc', by simp [hc', hl], by simp [hc']⟩

/-- Witness of C4: one call of `step` on the scenario's one-element chain. -/
theorem chain_growth_witness :
    (scenario ℝ).chain ≠ [] ∧
    ∃ x v, RAHMC.step Real.exp (scenario ℝ) { queue := [] } [1] 0 =
      some ({ scenario ℝ with chain := (scenario ℝ).chain ++ [x] }, v) :=
  ⟨List.cons_ne_nil _ _,
    ((chain_growth Real.exp (scenario ℝ) { queue := [] } [0] [1] 0 []).2.2.1
      (List.cons_ne_nil _ _)).1⟩

/-! ## C5 -/

theorem runFrictions_append (exp : K → K) (self : Self K) (gs hs : List K)
    (qp : List K × List K) :
    runFrictions exp self (gs ++ hs) qp = runFrictions exp self hs (runFrictions exp self gs qp) := by
  simp only [runFrictions, List.foldl_append]

theorem runWork_append (exp : K → K) (self : Self K) (gs hs : List K) (w : Work K) :
    runWork exp self (gs ++ hs) w = runWork exp self hs (runWork exp self gs w) := by
  simp only [runWork, List.foldl_append]

theorem runWork_state (exp : K → K) (self : Self K) (gs : List K) :
    ∀ w : Work K, ((runWork exp self gs w).1, (runWork exp self gs w).2.1) =
      runFrictions exp self gs (w.1, w.2.1) := by
  induction gs with
  | nil => intro w; rfl
  | cons g rest ih =>
    intro w
    have h := ih (RAHMC.loopBody exp self w g)
    simpa only [runWork, runFrictions, List.foldl_cons] using h

theorem runFrictions_reverse (self : Self ℝ) (d : Nat)
    (hG : ∀ x : List ℝ, x.length = d → (self.gradLogDensity x).length = d) (gs : List ℝ) :
    ∀ q p : List ℝ, q.length = d → p.length = d →
      runFrictions Real.exp self (gs.reverse.map (fun g => -g))
        ((runFrictions Real.exp self gs (q, p)).1,
          (runFrictions Real.exp self gs (q, p)).2.map (fun x => -x)) =
        (q, p.map (fun x => -x)) := by
  induction gs with
  | nil => intro q p _ _; rfl
  | cons g rest ih =>
    intro q p hq hp
    obtain ⟨l1, l2, hr⟩ := substep_reverse self d hG q p hq hp g
    have h := ih _ _ l1 l2
    rw [List.reverse_cons, List.map_append, runFrictions_append]
    have e : runFrictions Real.exp self (g :: rest) (q, p) =
        runFrictions Real.exp self rest (RAHMC.conformalLeapfrogStep Real.exp self q p g) := rfl
    rw [e, h]
    exact hr

theorem twice_position (self : Self ℝ) (hdt : self.dt = 1)
    (hgrad : self.gradLogDensity = fun q => q.map (fun x => -x)) (g : ℝ) :
    (runFrictions Real.exp self [g]
      ((runFrictions Real.exp self [g] ([0], [1])).1,
        (runFrictions Real.exp self [g] ([0], [1])).2.map (fun x => -x))).1 =
      [Real.exp (-g / 2) * (1 - Real.exp (-g / 2) ^ 2) / 2] := by
  simp only [runFrictions, List.foldl_cons, List.foldl_nil, substep_formula, hdt, hgrad]
  simp
  ring

theorem twice_position_ne (g : ℝ) (hg : g ≠ 0) :
    Real.exp (-g / 2) * (1 - Real.exp (-g / 2) ^ 2) / 2 ≠ 0 := by
  have hpos := Real.exp_pos (-g / 2)
  have hne : Real.exp (-g / 2) ≠ 1 := by
    intro h
    rw [Real.exp_eq_one_iff] at h
    apply hg
    linarith
  intro h
  have h2 : Real.exp (-g / 2) * (1 - Real.exp (-g / 2) ^ 2) = 0 := by linarith
  rcases mul_eq_zero.mp h2 with h3 | h3
  · exact absurd h3 (ne_of_gt hpos)
  · have : (Real.exp (-g / 2) - 1) * (Real.exp (-g / 2) + 1) = 0 := by linarith
    rcases mul_eq_zero.mp this with h4 | h4
    · exact hne (by linarith)
    · linarith


/-- C5 as stated fails.  In the scenario (no friction) the backward run from
`(q_L, -p_L)` does not return to `(q0, p0)`: the momentum comes back negated.  With
friction (`gamma = 2`, `dt = 1`), re-running the same frictions in reversed order does not
even bring the position back, in either variant. -/
theorem reversal_counterexample :
    runFrictions Real.exp (scenario ℝ) (RAHMC.frictions (scenario ℝ)).reverse
      ((RAHMC.integrate Real.exp (scenario ℝ) [0] [1]).1,
        (RAHMC.integrate Real.exp (scenario ℝ) [0] [1]).2.1.map (fun x => -x)) ≠
      ([0], [1]) ∧
    (runFrictions Real.exp (frictionScenario ℝ)
      (RAHMC.frictions (frictionScenario ℝ)).reverse
      ((RAHMC.integrate Real.exp (frictionScenario ℝ) [0] [1]).1,
        (RAHMC.integrate Real.exp (frictionScenario ℝ) [0] [1]).2.1.map
          (fun x => -x))).1 ≠ [0] ∧
    (runFrictions Real.exp (frictionScenario ℝ)
      (RAHMCSigmoid.frictions Real.exp (frictionScenario ℝ)).reverse
      ((RAHMCSigmoid.integrate Real.exp (frictionScenario ℝ) [0] [1]).1,
        (RAHMCSigmoid.integrate Real.exp (frictionScenario ℝ)
          [0] [1]).2.1.map (fun x => -x))).1 ≠ [0] := by
  refine ⟨?_, ?_, ?_⟩
  · rw [scenario_integrate Real.exp Real.exp_zero, split_frictions_one _ rfl]
    simp only [runFrictions, List.reverse_singleton, List.foldl_cons, List.foldl_nil,
      substep_formula]
    simp [scenario]
    norm_num
  · have h := runWork_state Real.exp (frictionScenario ℝ)
      (RAHMC.frictions (frictionScenario ℝ)) ([0], [1], [[0]])
    rw [← split_integrate_eq_runWork, split_frictions_one _ rfl] at h
    rw [split_frictions_one _ rfl, List.reverse_singleton]
    have e1 := congrArg Prod.fst h
    have e2 := congrArg Prod.snd h
    simp only at e1 e2
    rw [e1, e2, twice_position _ rfl rfl]
    have hg : (frictionScenario ℝ).gamma = 2 := rfl
    rw [hg]
    simpa using twice_position_ne 2 (by norm_num)
  · have h := runWork_state Real.exp (frictionScenario ℝ)
      (RAHMCSigmoid.frictions Real.exp (frictionScenario ℝ))
      ([0], [1], [[0]])
    rw [← sigmoid_integrate_eq_runWork, sigmoid_frictions_one _ _ rfl] at h
    rw [sigmoid_frictions_one _ _ rfl, List.reverse_singleton]
    have e1 := congrArg Prod.fst h
    have e2 := congrArg Prod.snd h
    simp only at e1 e2
    rw [e1, e2, twice_position _ rfl rfl]
    have hg : RAHMCSigmoid.gamma_t Real.exp (frictionScenario ℝ) 0 ≠ 0 := by
      simp only [RAHMCSigmoid.gamma_t, RAHMCSigmoid.gammaAt, RAHMCSigmoid.totalTime,
        frictionScenario, scenario]
      norm_num
      intro h
      have h1 : (1 : ℝ) < Real.exp 5 := Real.one_lt_exp_iff.mpr (by norm_num)
      have hpos : (0 : ℝ) < 1 + Real.exp 5 := by linarith
      have h2 : 2 / (1 + Real.exp 5) = 1 := by linarith
      rw [div_eq_one_iff_eq (ne_of_gt hpos)] at h2
      linarith
    simpa using twice_position_ne _ hg

/-- C5 (amended): for vectors of dimension `d` and a gradient that keeps the dimension,
in each variant the forward trajectory is the sub-step primitive run over the schedule's
frictions `g_0, ..., g_{L-1}` and ends at `(q_L, p_L)`; starting from `(q_L, -p_L)` and
applying the same primitive with the negated frictions in time-reversed order
`-g_{L-1}, ..., -g_0` returns to `(q0, -p0)`. -/
theorem reversal_negated_frictions (self : Self ℝ) (d : Nat)
    (hG : ∀ x : List ℝ, x.length = d → (self.gradLogDensity x).length = d)
    (q0 p0 : List ℝ) (hq : q0.length = d) (hp : p0.length = d) :
    (((RAHMC.integrate Real.exp self q0 p0).1, (RAHMC.integrate Real.exp self q0 p0).2.1) =
        runFrictions Real.exp self (RAHMC.frictions self) (q0, p0) ∧
      runFrictions Real.exp self ((RAHMC.frictions self).reverse.map (fun g => -g))
        ((RAHMC.integrate Real.exp self q0 p0).1,
          (RAHMC.integrate Real.exp self q0 p0).2.1.map (fun x => -x)) =
        (q0, p0.map (fun x => -x))) ∧
    (((RAHMCSigmoid.integrate Real.exp self q0 p0).1,
        (RAHMCSigmoid.integrate Real.exp self q0 p0).2.1) =
        runFrictions Real.exp self (RAHMCSigmoid.frictions Real.exp self) (q0, p0) ∧
      runFrictions Real.exp self
        ((RAHMCSigmoid.frictions Real.exp self).reverse.map (fun g => -g))
        ((RAHMCSigmoid.integrate Real.exp self q0 p0).1,
          (RAHMCSigmoid.integrate Real.exp self q0 p0).2.1.map (fun x => -x)) =
        (q0, p0.map (fun x => -x))) := by
  have h1 := runWork_state Real.exp self (RAHMC.frictions self) (q0, p0, [q0])
  have h2 := runWork_state Real.exp self (RAHMCSigmoid.frictions Real.exp self) (q0, p0, [q0])
  rw [← split_integrate_eq_runWork] at h1
  rw [← sigmoid_integrate_eq_runWork] at h2
  have r1 := runFrictions_reverse self d hG (RAHMC.frictions self) q0 p0 hq hp
  have r2 := runFrictions_reverse self d hG (RAHMCSigmoid.frictions Real.exp self) q0 p0 hq hp
  rw [← h1] at r1
  rw [← h2] at r2
  exact ⟨⟨h1, r1⟩, ⟨h2, r2⟩⟩

/-- Witness of C5 (amended): the scenario with friction, dimension 1. -/
theorem reversal_negated_frictions_witness :
    (∀ x : List ℝ, x.length = 1 → ((frictionScenario ℝ).gradLogDensity x).length = 1) ∧
    ([0] : List ℝ).length = 1 ∧ ([1] : List ℝ).length = 1 ∧
    runFrictions Real.exp (frictionScenario ℝ)
      ((RAHMC.frictions (frictionScenario ℝ)).reverse.map (fun g => -g))
      ((RAHMC.integrate Real.exp (frictionScenario ℝ) [0] [1]).1,
        (RAHMC.integrate Real.exp (frictionScenario ℝ) [0] [1]).2.1.map (fun x => -x)) =
      ([0], [-1]) :=
  ⟨fun x hx => by simpa [frictionScenario, scenario] using hx, rfl, rfl,
    by simpa using (reversal_negated_frictions (frictionScenario ℝ) 1
      (fun x hx => by simpa [frictionScenario, scenario] using hx) [0] [1] rfl rfl).1.2⟩


/-! ## C6 -/

/-- C6: with `T = dt * leapfrogSteps > 0`, the sigmoid friction function of
RAHMC-Sigmoid.js, `gammaAt(t) = gamma * (2 / (1 + exp(-steepness * (t/T - 0.5))) - 1)`,
satisfies `gammaAt(t) = -gammaAt(T - t)` for every real `t`, in particular for every `t`
in `[0, T]`. -/
theorem sigmoid_antisymmetry (self : Self ℝ) (hT : 0 < RAHMCSigmoid.totalTime self) (t : ℝ) :
    RAHMCSigmoid.gammaAt Real.exp self t =
      -RAHMCSigmoid.gammaAt Real.exp self (RAHMCSigmoid.totalTime self - t) := by
  have hT' : RAHMCSigmoid.totalTime self ≠ 0 := ne_of_gt hT
  have e : self.steepness * ((RAHMCSigmoid.totalTime self - t) / RAHMCSigmoid.totalTime self - 0.5) =
      -(self.steepness * (t / RAHMCSigmoid.totalTime self - 0.5)) := by
    field_simp
    ring
  simp only [RAHMCSigmoid.gammaAt]
  rw [e, neg_neg]
  set x := self.steepness * (t / RAHMCSigmoid.totalTime self - 0.5)
  have hx := Real.exp_pos x
  rw [Real.exp_neg]
  field_simp
  ring

/-- Witness of C6: the default configuration of RAHMC-Sigmoid.js, `T = 0.1 * 40`. -/
theorem sigmoid_antisymmetry_witness :
    0 < RAHMCSigmoid.totalTime (RAHMCSigmoid.init (scenario ℝ)) ∧
    RAHMCSigmoid.gammaAt Real.exp (RAHMCSigmoid.init (scenario ℝ)) 1 =
      -RAHMCSigmoid.gammaAt Real.exp (RAHMCSigmoid.init (scenario ℝ))
        (RAHMCSigmoid.totalTime (RAHMCSigmoid.init (scenario ℝ)) - 1) :=
  ⟨by simp [RAHMCSigmoid.totalTime, RAHMCSigmoid.init]; norm_num,
    sigmoid_antisymmetry (RAHMCSigmoid.init (scenario ℝ))
      (by simp [RAHMCSigmoid.totalTime, RAHMCSigmoid.init]; norm_num) 1⟩

/-! ## C7 -/

theorem sig_bounds (x : ℝ) :
    -1 < 2.0 / (1.0 + Real.exp (-x)) - 1.0 ∧ 2.0 / (1.0 + Real.exp (-x)) - 1.0 < 1 := by
  have h := Real.exp_pos (-x)
  have hp : (0 : ℝ) < 1.0 + Real.exp (-x) := by norm_num; linarith
  constructor
  · have : (0 : ℝ) < 2.0 / (1.0 + Real.exp (-x)) := div_pos (by norm_num) hp
    linarith
  · have : 2.0 / (1.0 + Real.exp (-x)) < 2 := by
      rw [div_lt_iff₀ hp]
      norm_num
      linarith
    norm_num at this ⊢
    linarith

theorem sig_strictMono {x y : ℝ} (h : x < y) :
    2.0 / (1.0 + Real.exp (-x)) - 1.0 < 2.0 / (1.0 + Real.exp (-y)) - 1.0 := by
  have hy := Real.exp_pos (-y)
  have he : Real.exp (-y) < Real.exp (-x) := Real.exp_lt_exp.mpr (by linarith)
  have : 2.0 / (1.0 + Real.exp (-x)) < 2.0 / (1.0 + Real.exp (-y)) := by
    apply div_lt_div_of_pos_left
    · norm_num
    · norm_num; linarith
    · norm_num; linarith
  linarith

theorem sig_zero : 2.0 / (1.0 + Real.exp (-(0 : ℝ))) - 1.0 = 0 := by
  norm_num


theorem sigmoid_frictions_entry (exp : K → K) (self : Self K) (s : Nat) (g : K)
    (h : (RAHMCSigmoid.frictions exp self)[s]? = some g) :
    (s : Int) < self.leapfrogSteps ∧ g = RAHMCSigmoid.gamma_t exp self s := by
  simp only [RAHMCSigmoid.frictions, List.getElem?_map, Option.map_eq_some'] at h
  obtain ⟨a, ha, hg⟩ := h
  rw [List.getElem?_eq_some_iff] at ha
  obtain ⟨hlt, ha⟩ := ha
  simp only [List.length_range] at hlt
  simp only [List.getElem_range] at ha
  subst ha
  exact ⟨by omega, hg.symm⟩

theorem normalizedTime_eq (self : Self ℝ) (hdt : 0 < self.dt) (hL : 1 ≤ self.leapfrogSteps)
    (s : Nat) :
    self.steepness * ((s : ℝ) * self.dt / RAHMCSigmoid.totalTime self - 0.5) =
      self.steepness * ((2 * (s : ℝ) - (self.leapfrogSteps : ℝ)) /
        (2 * (self.leapfrogSteps : ℝ))) := by
  have hLr : (0 : ℝ) < (self.leapfrogSteps : ℝ) := by
    have : (1 : ℝ) ≤ (self.leapfrogSteps : ℝ) := by exact_mod_cast hL
    linarith
  have h1 := ne_of_gt hdt
  have h2 := ne_of_gt hLr
  simp only [RAHMCSigmoid.totalTime]
  congr 1
  field_simp
  ring

theorem gamma_t_eq (self : Self ℝ) (hdt : 0 < self.dt) (hL : 1 ≤ self.leapfrogSteps)
    (s : Nat) :
    RAHMCSigmoid.gamma_t Real.exp self s =
      self.gamma * (2.0 / (1.0 + Real.exp (-(self.steepness *
        ((2 * (s : ℝ) - (self.leapfrogSteps : ℝ)) / (2 * (self.leapfrogSteps : ℝ)))))) - 1.0) := by
  simp only [RAHMCSigmoid.gamma_t, RAHMCSigmoid.gammaAt]
  rw [normalizedTime_eq self hdt hL s]

/-- C7: in the RAHMC-Sigmoid step with `gamma > 0`, `steepness > 0`, `dt > 0` and
`leapfrogSteps = L >= 1`, the friction `gamma_t` passed to the sub-step at every index `s`
of the loop lies strictly between `-gamma` and `+gamma`; it is negative when `2s < L`,
zero when `2s = L` and positive when `2s > L`, and it is strictly increasing in `s`.  The
frictions used are the entries `gamma_t s`, `s < L`, of the loop's call sequence. -/
theorem sigmoid_friction_range (self : Self ℝ) (hg : 0 < self.gamma)
    (hk : 0 < self.steepness) (hdt : 0 < self.dt) (hL : 1 ≤ self.leapfrogSteps) :
    (∀ (s : Nat) (g : ℝ), (RAHMCSigmoid.frictions Real.exp self)[s]? = some g →
      g = RAHMCSigmoid.gamma_t Real.exp self s ∧
      -self.gamma < g ∧ g < self.gamma ∧
      (2 * (s : Int) < self.leapfrogSteps → g < 0) ∧
      (2 * (s : Int) = self.leapfrogSteps → g = 0) ∧
      (self.leapfrogSteps < 2 * (s : Int) → 0 < g)) ∧
    (∀ (s s' : Nat) (g g' : ℝ), s < s' →
      (RAHMCSigmoid.frictions Real.exp self)[s]? = some g →
      (RAHMCSigmoid.frictions Real.exp self)[s']? = some g' → g < g') ∧
    (∀ s : Nat, (s : Int) < self.leapfrogSteps →
      (RAHMCSigmoid.frictions Real.exp self)[s]? =
        some (RAHMCSigmoid.gamma_t Real.exp self s)) := by
  have hLr : (0 : ℝ) < (self.leapfrogSteps : ℝ) := by
    have : (1 : ℝ) ≤ (self.leapfrogSteps : ℝ) := by exact_mod_cast hL
    linarith
  have h2L : (0 : ℝ) < 2 * (self.leapfrogSteps : ℝ) := by linarith
  refine ⟨?_, ?_, ?_⟩
  · intro s g hs
    obtain ⟨_, rfl⟩ := sigmoid_frictions_entry Real.exp self s g hs
    refine ⟨rfl, ?_⟩
    rw [gamma_t_eq self hdt hL s]
    set x := self.steepness *
      ((2 * (s : ℝ) - (self.leapfrogSteps : ℝ)) / (2 * (self.leapfrogSteps : ℝ))) with hx
    obtain ⟨b1, b2⟩ := sig_bounds x
    refine ⟨by nlinarith, by nlinarith, ?_, ?_, ?_⟩
    · intro h
      have hc : (2 * (s : ℝ)) < (self.leapfrogSteps : ℝ) := by exact_mod_cast h
      have hx0 : x < 0 := by
        rw [hx]
        exact mul_neg_of_pos_of_neg hk (div_neg_of_neg_of_pos (by linarith) h2L)
      have := sig_strictMono hx0
      rw [sig_zero] at this
      nlinarith
    · intro h
      have hc : (2 * (s : ℝ)) = (self.leapfrogSteps : ℝ) := by exact_mod_cast h
      have hx0 : x = 0 := by rw [hx, hc]; simp
      rw [hx0, sig_zero, mul_zero]
    · intro h
      have hc : (self.leapfrogSteps : ℝ) < 2 * (s : ℝ) := by exact_mod_cast h
      have hx0 : 0 < x := by
        rw [hx]
        exact mul_pos hk (div_pos (by linarith) h2L)
      have := sig_strictMono hx0
      rw [sig_zero] at this
      nlinarith
  · intro s s' g g' hss hs hs'
    obtain ⟨_, rfl⟩ := sigmoid_frictions_entry Real.exp self s g hs
    obtain ⟨_, rfl⟩ := sigmoid_frictions_entry Real.exp self s' g' hs'
    rw [gamma_t_eq self hdt hL s, gamma_t_eq self hdt hL s']
    have hc : (s : ℝ) < (s' : ℝ) := by exact_mod_cast hss
    have hx : self.steepness *
        ((2 * (s : ℝ) - (self.leapfrogSteps : ℝ)) / (2 * (self.leapfrogSteps : ℝ))) <
        self.steepness *
        ((2 * (s' : ℝ) - (self.leapfrogSteps : ℝ)) / (2 * (self.leapfrogSteps : ℝ))) := by
      apply mul_lt_mul_of_pos_left _ hk
      apply div_lt_div_of_pos_right _ h2L
      linarith
    have := sig_strictMono hx
    nlinarith
  · intro s hs
    simp only [RAHMCSigmoid.frictions, List.getElem?_map]
    rw [List.getElem?_range (by omega)]
    rfl


/-- Witness of C7: the default configuration of RAHMC-Sigmoid.js; the friction of
sub-step 20 of 40 is zero. -/
theorem sigmoid_friction_range_witness :
    0 < (RAHMCSigmoid.init (scenario ℝ)).gamma ∧
    0 < (RAHMCSigmoid.init (scenario ℝ)).steepness ∧
    0 < (RAHMCSigmoid.init (scenario ℝ)).dt ∧
    1 ≤ (RAHMCSigmoid.init (scenario ℝ)).leapfrogSteps ∧
    RAHMCSigmoid.gamma_t Real.exp (RAHMCSigmoid.init (scenario ℝ)) 20 = 0 := by
  have hg : 0 < (RAHMCSigmoid.init (scenario ℝ)).gamma := by
    simp [RAHMCSigmoid.init]; norm_num
  have hk : 0 < (RAHMCSigmoid.init (scenario ℝ)).steepness := by
    simp [RAHMCSigmoid.init]; norm_num
  have hdt : 0 < (RAHMCSigmoid.init (scenario ℝ)).dt := by
    simp [RAHMCSigmoid.init]; norm_num
  have hL : 1 ≤ (RAHMCSigmoid.init (scenario ℝ)).leapfrogSteps := by decide
  have h := sigmoid_friction_range (RAHMCSigmoid.init (scenario ℝ)) hg hk hdt hL
  exact ⟨hg, hk, hdt, hL,
    (h.1 20 _ (h.2.2 20 (by decide))).2.2.2.2.1 (by decide)⟩

/-! ## C8 -/

theorem substep_zero (self : Self ℝ) (q p : List ℝ) :
    RAHMC.conformalLeapfrogStep Real.exp self q p 0 = plainLeapfrogStep self q p := by
  simp [RAHMC.conformalLeapfrogStep, plainLeapfrogStep]

theorem runWork_zero (self : Self ℝ) (n : Nat) :
    ∀ w : Work ℝ, runWork Real.exp self (List.replicate n 0) w = plainLeapfrog self n w := by
  induction n with
  | zero => intro w; rfl
  | succ n ih =>
    intro w
    rw [List.replicate_succ]
    simp only [runWork, List.foldl_cons, plainLeapfrog]
    have h := ih (RAHMC.loopBody Real.exp self w 0)
    simp only [runWork] at h
    rw [h]
    simp only [RAHMC.loopBody, substep_zero, Vec.copy]

theorem split_frictions_zero (self : Self ℝ) (hg : self.gamma = 0) :
    RAHMC.frictions self = List.replicate self.leapfrogSteps.toNat 0 := by
  rw [split_frictions_eq, hg, neg_zero, List.append_replicate_replicate]
  congr 1
  omega

theorem sigmoid_frictions_zero (self : Self ℝ) (hg : self.gamma = 0) :
    RAHMCSigmoid.frictions Real.exp self = List.replicate self.leapfrogSteps.toNat 0 := by
  simp only [RAHMCSigmoid.frictions, RAHMCSigmoid.gamma_t, RAHMCSigmoid.gammaAt, hg, zero_mul]
  simp [List.map_const']

/-- C8: with `gamma = 0`, the trajectory and the final `(q, p)` of the RAHMC step are
those of the plain leapfrog integrator repeated `leapfrogSteps` times; with `dt` non-zero,
so that the sigmoid schedule divides by a non-zero total time, the same holds of the
RAHMC-Sigmoid step, and the two variants agree. -/
theorem zero_friction_reduction (self : Self ℝ) (q0 p0 : List ℝ) (hg : self.gamma = 0) :
    RAHMC.integrate Real.exp self q0 p0 =
      plainLeapfrog self self.leapfrogSteps.toNat (q0, p0, [q0]) ∧
    (self.dt ≠ 0 →
      RAHMCSigmoid.integrate Real.exp self q0 p0 =
        plainLeapfrog self self.leapfrogSteps.toNat (q0, p0, [q0]) ∧
      RAHMCSigmoid.integrate Real.exp self q0 p0 = RAHMC.integrate Real.exp self q0 p0) := by
  have h1 : RAHMC.integrate Real.exp self q0 p0 =
      plainLeapfrog self self.leapfrogSteps.toNat (q0, p0, [q0]) := by
    rw [split_integrate_eq_runWork, split_frictions_zero self hg, runWork_zero]
  have h2 : RAHMCSigmoid.integrate Real.exp self q0 p0 =
      plainLeapfrog self self.leapfrogSteps.toNat (q0, p0, [q0]) := by
    rw [sigmoid_integrate_eq_runWork, sigmoid_frictions_zero self hg, runWork_zero]
  exact ⟨h1, fun _ => ⟨h2, h2.trans h1.symm⟩⟩


/-- Witness of C8: the scenario has `gamma = 0` and `dt = 0.1`. -/
theorem zero_friction_reduction_witness :
    (scenario ℝ).gamma = 0 ∧ (scenario ℝ).dt ≠ 0 ∧
    RAHMCSigmoid.integrate Real.exp (scenario ℝ) [0] [1] =
      RAHMC.integrate Real.exp (scenario ℝ) [0] [1] :=
  ⟨rfl, by simp [scenario]; norm_num,
    ((zero_friction_reduction (scenario ℝ) [0] [1] rfl).2 (by simp [scenario]; norm_num)).2⟩

/-! ## C9 -/

/-- C9: the scenario (`d = 1`, standard normal target, `leapfrogSteps = 1`, `dt = 0.1`,
`gamma = 0`, `q0 = 0`, `p0 = 1`).  The step computes the proposal `q = 0.1` and the
momentum `0.995`, `-0.995` after the flip, `H0 = 0.5`, `H = 0.5000125` and
`logAcceptRatio = H0 - H = -0.0000125 = -1/80000`; `step` accepts exactly when
`u < exp(logAcceptRatio) = exp(-1/80000)`: for every such uniform draw `[0.1]` is
appended to the chain, and for every other draw `[0]` is. -/
theorem scenario_step :
    RAHMC.integrate Real.exp (scenario ℝ) [0] [1] = ([0.1], [0.995], [[0], [0.1]]) ∧
    RAHMC.proposal Real.exp (scenario ℝ) ([0], [1]) = ([0.1], [-0.995]) ∧
    RAHMC.energies Real.exp (scenario ℝ) [0] [1] = (0.5, 0.5000125, -0.0000125) ∧
    (0.5 : ℝ) - 0.5000125 = -0.0000125 ∧ (-0.0000125 : ℝ) = -1 / 80000 ∧
    (∀ (visualizer : Visualizer ℝ) (u : ℝ),
      RAHMC.step Real.exp (scenario ℝ) visualizer [1] u =
        if u < Real.exp (RAHMC.energies Real.exp (scenario ℝ) [0] [1]).2.2 then
          some ({ scenario ℝ with chain := [[0], [0.1]] },
            { queue := visualizer.queue ++
                [Event.proposal [0.1] [[0], [0.1]] [1], Event.accept [0.1]] })
        else
          some ({ scenario ℝ with chain := [[0], [0]] },
            { queue := visualizer.queue ++
                [Event.proposal [0.1] [[0], [0.1]] [1], Event.reject [0.1]] })) ∧
    (∀ (visualizer : Visualizer ℝ) (u : ℝ),
      RAHMC.step Real.exp (scenario ℝ) visualizer [1] u =
        if u < Real.exp (-1 / 80000) then
          some ({ scenario ℝ with chain := [[0], [0.1]] },
            { queue := visualizer.queue ++
                [Event.proposal [0.1] [[0], [0.1]] [1], Event.accept [0.1]] })
        else
          some ({ scenario ℝ with chain := [[0], [0]] },
            { queue := visualizer.queue ++
                [Event.proposal [0.1] [[0], [0.1]] [1], Event.reject [0.1]] })) ∧
    ∀ (visualizer : Visualizer ℝ) (u : ℝ), u < Real.exp (-1 / 80000) →
      RAHMC.step Real.exp (scenario ℝ) visualizer [1] u =
        some ({ scenario ℝ with chain := [[0], [0.1]] },
          { queue := visualizer.queue ++
              [Event.proposal [0.1] [[0], [0.1]] [1], Event.accept [0.1]] }) := by
  have hi : RAHMC.integrate Real.exp (scenario ℝ) [0] [1] =
      ([0.1], [0.995], [[0], [0.1]]) := by
    rw [scenario_integrate Real.exp Real.exp_zero]; norm_num
  have he := scenario_energies
  have hc : (scenario ℝ).chain.getLast? = some [0] := rfl
  have hstep : ∀ (visualizer : Visualizer ℝ) (u : ℝ),
      RAHMC.step Real.exp (scenario ℝ) visualizer [1] u =
        if u < Real.exp (RAHMC.energies Real.exp (scenario ℝ) [0] [1]).2.2 then
          some ({ scenario ℝ with chain := [[0], [0.1]] },
            { queue := visualizer.queue ++
                [Event.proposal [0.1] [[0], [0.1]] [1], Event.accept [0.1]] })
        else
          some ({ scenario ℝ with chain := [[0], [0]] },
            { queue := visualizer.queue ++
                [Event.proposal [0.1] [[0], [0.1]] [1], Event.reject [0.1]] }) := by
    intro visualizer u
    rw [split_step_energies Real.exp (scenario ℝ) visualizer [0] [1] u hc, hi]
    rfl
  have hval : (RAHMC.energies Real.exp (scenario ℝ) [0] [1]).2.2 = -1 / 80000 := by
    rw [he]; norm_num
  have hstep' := hstep
  simp only [hval] at hstep'
  refine ⟨hi, ?_, he, by norm_num, by norm_num, hstep, hstep', ?_⟩
  · simp only [RAHMC.proposal, hi]
    norm_num
  · intro visualizer u hu
    rw [hstep' visualizer u, if_pos hu]

/-- Witness of C9: the draw `u = 0.99` is below `exp(-1/80000)`. -/
theorem scenario_step_witness :
    (0.99 : ℝ) < Real.exp (-1 / 80000) ∧
    RAHMC.step Real.exp (scenario ℝ) { queue := [] } [1] 0.99 =
      some ({ scenario ℝ with chain := [[0], [0.1]] },
        { queue := [Event.proposal [0.1] [[0], [0.1]] [1], Event.accept [0.1]] }) := by
  have hu : (0.99 : ℝ) < Real.exp (-1 / 80000) := by
    have h := Real.add_one_le_exp (-1 / 80000)
    norm_num at h ⊢
    linarith
  exact ⟨hu, scenario_step.2.2.2.2.2.2.2 { queue := [] } 0.99 hu⟩

/-! ## C10 -/

theorem runWork_last (exp : K → K) (self : Self K) (gs : List K) :
    ∀ w : Work K, w.2.2.getLast? = some w.1 →
      (runWork exp self gs w).2.2.getLast? = some (runWork exp self gs w).1 := by
  induction gs with
  | nil => intro w h; exact h
  | cons g rest ih =>
    intro w _
    have h := ih (RAHMC.loopBody exp self w g) (by simp [RAHMC.loopBody, Vec.copy])
    simpa only [runWork, List.foldl_cons] using h

theorem runWork_trajectory (exp : K → K) (self : Self K) (gs : List K) (w : Work K) :
    (runWork exp self gs w).2.2 = w.2.2 ++ (List.range gs.length).map
      (fun i => (runFrictions exp self (gs.take (i + 1)) (w.1, w.2.1)).1) := by
  induction gs using List.reverseRecOn with
  | nil => simp [runWork]
  | append_singleton gs g ih =>
    rw [runWork_append]
    have hs := runWork_state exp self gs w
    have hstep : (runWork exp self [g] (runWork exp self gs w)).2.2 =
        (runWork exp self gs w).2.2 ++
          [(runFrictions exp self (gs ++ [g]) (w.1, w.2.1)).1] := by
      rw [runFrictions_append, ← hs]
      rfl
    rw [hstep, ih, List.length_append, List.length_singleton, List.range_succ, List.map_append,
      List.append_assoc]
    congr 1
    congr 1
    · apply List.map_congr_left
      intro i hi
      rw [List.mem_range] at hi
      rw [List.take_append_of_le_length (by omega)]
    · simp only [List.map_cons, List.map_nil]
      rw [List.take_of_length_le (by simp)]

theorem trajectory_entries (exp : K → K) (self : Self K) (gs : List K) (q0 p0 : List K) :
    (runWork exp self gs (q0, p0, [q0])).2.2.length = gs.length + 1 ∧
    ∀ i : Nat, i ≤ gs.length →
      (runWork exp self gs (q0, p0, [q0])).2.2[i]? =
        some (runFrictions exp self (gs.take i) (q0, p0)).1 := by
  rw [runWork_trajectory]
  refine ⟨by simp [Nat.add_comm], ?_⟩
  intro i hi
  cases i with
  | zero => simp [runFrictions]
  | succ j =>
    simp only [List.singleton_append, List.getElem?_cons_succ, List.getElem?_map]
    rw [List.getElem?_range (by omega)]
    rfl

/-- C10: in both variants the trajectory built by `step` has `leapfrogSteps + 1`
entries (one entry when `leapfrogSteps` is not positive); entry 0 is the pre-step position
`q0`, entry `i` is the position after the first `i` sub-steps of the schedule, and the last
entry is the proposal `q` that `step` tests for acceptance. -/
theorem trajectory_shape (exp : K → K) (self : Self K) (q0 p0 : List K) :
    ((RAHMC.integrate exp self q0 p0).2.2.length = self.leapfrogSteps.toNat + 1 ∧
      (1 ≤ self.leapfrogSteps →
        ((RAHMC.integrate exp self q0 p0).2.2.length : Int) = self.leapfrogSteps + 1) ∧
      (RAHMC.integrate exp self q0 p0).2.2[0]? = some q0 ∧
      (∀ i : Nat, i ≤ self.leapfrogSteps.toNat →
        (RAHMC.integrate exp self q0 p0).2.2[i]? =
          some (runFrictions exp self ((RAHMC.frictions self).take i) (q0, p0)).1) ∧
      (RAHMC.integrate exp self q0 p0).2.2.getLast? =
        some (RAHMC.integrate exp self q0 p0).1) ∧
    ((RAHMCSigmoid.integrate exp self q0 p0).2.2.length = self.leapfrogSteps.toNat + 1 ∧
      (1 ≤ self.leapfrogSteps →
        ((RAHMCSigmoid.integrate exp self q0 p0).2.2.length : Int) =
          self.leapfrogSteps + 1) ∧
      (RAHMCSigmoid.integrate exp self q0 p0).2.2[0]? = some q0 ∧
      (∀ i : Nat, i ≤ self.leapfrogSteps.toNat →
        (RAHMCSigmoid.integrate exp self q0 p0).2.2[i]? =
          some (runFrictions exp self ((RAHMCSigmoid.frictions exp self).take i)
            (q0, p0)).1) ∧
      (RAHMCSigmoid.integrate exp self q0 p0).2.2.getLast? =
        some (RAHMCSigmoid.integrate exp self q0 p0).1) := by
  have l1 : (RAHMC.frictions self).length = self.leapfrogSteps.toNat := by
    rw [split_frictions_eq]
    simp only [List.length_append, List.length_replicate]
    omega
  have l2 : (RAHMCSigmoid.frictions exp self).length = self.leapfrogSteps.toNat := by
    simp [RAHMCSigmoid.frictions]
  obtain ⟨a1, a2⟩ := trajectory_entries exp self (RAHMC.frictions self) q0 p0
  obtain ⟨b1, b2⟩ := trajectory_entries exp self (RAHMCSigmoid.frictions exp self) q0 p0
  have a3 := runWork_last exp self (RAHMC.frictions self) (q0, p0, [q0]) rfl
  have b3 := runWork_last exp self (RAHMCSigmoid.frictions exp self) (q0, p0, [q0]) rfl
  rw [← split_integrate_eq_runWork] at a1 a2 a3
  rw [← sigmoid_integrate_eq_runWork] at b1 b2 b3
  rw [l1] at a1 a2
  rw [l2] at b1 b2
  refine ⟨⟨a1, fun h => ?_, ?_, a2, a3⟩, ⟨b1, fun h => ?_, ?_, b2, b3⟩⟩
  · rw [a1]; push_cast; omega
  · simpa [runFrictions] using a2 0 (Nat.zero_le _)
  · rw [b1]; push_cast; omega
  · simpa [runFrictions] using b2 0 (Nat.zero_le _)

/-- Witness of C10: the scenario has one leapfrog step and a trajectory of two entries. -/
theorem trajectory_shape_witness :
    1 ≤ (scenario ℝ).leapfrogSteps ∧
    ((RAHMC.integrate Real.exp (scenario ℝ) [0] [1]).2.2.length : Int) =
      (scenario ℝ).leapfrogSteps + 1 :=
  ⟨by decide, (trajectory_shape Real.exp (scenario ℝ) [0] [1]).1.2.1 (by decide)⟩

/-! ## C11 -/

/-- C11: every call of `step` on a chain ending in `q0`, in either variant, appends exactly
two events to the visualizer queue and leaves the earlier entries in place: first a
`proposal` event with the candidate `q`, the full trajectory and the drawn momentum `p0`,
then one event that is `accept` if and only if `u < exp(logAcceptRatio)`, that is when the
candidate is the state appended to the chain, and `reject` otherwise, with the same `q`. -/
theorem queue_events (exp : K → K) (self : Self K) (visualizer : Visualizer K)
    (q0 p0 : List K) (u : K) (h : self.chain.getLast? = some q0) :
    (let q := (RAHMC.integrate exp self q0 p0).1
     let trajectory := (RAHMC.integrate exp self q0 p0).2.2
     let p := (RAHMC.integrate exp self q0 p0).2.1.map (fun x => -x)
     let logAcceptRatio := (-self.logDensity q0 + Vec.norm2 p0 / 2) -
       (-self.logDensity q + Vec.norm2 p / 2)
     let last := if u < exp logAcceptRatio then Event.accept q else Event.reject q
     let next := if u < exp logAcceptRatio then q else q0
     RAHMC.step exp self visualizer p0 u =
       some ({ self with chain := self.chain ++ [next] },
         { queue := visualizer.queue ++ [Event.proposal q trajectory p0, last] }) ∧
     (last = Event.accept q ↔ u < exp logAcceptRatio) ∧
     (last = Event.reject q ↔ ¬ u < exp logAcceptRatio)) ∧
    (let q := (RAHMCSigmoid.integrate exp self q0 p0).1
     let trajectory := (RAHMCSigmoid.integrate exp self q0 p0).2.2
     let p := (RAHMCSigmoid.integrate exp self q0 p0).2.1.map (fun x => -x)
     let logAcceptRatio := (-self.logDensity q0 + Vec.norm2 p0 / 2) -
       (-self.logDensity q + Vec.norm2 p / 2)
     let last := if u < exp logAcceptRatio then Event.accept q else Event.reject q
     let next := if u < exp logAcceptRatio then q else q0
     RAHMCSigmoid.step exp self visualizer p0 u =
       some ({ self with chain := self.chain ++ [next] },
         { queue := visualizer.queue ++ [Event.proposal q trajectory p0, last] }) ∧
     (last = Event.accept q ↔ u < exp logAcceptRatio) ∧
     (last = Event.reject q ↔ ¬ u < exp logAcceptRatio)) := by
  refine ⟨?_, ?_⟩
  · intro q trajectory p logAcceptRatio last next
    have hl : -(-self.logDensity q + Vec.norm2 p / 2) +
        (-self.logDensity q0 + Vec.norm2 p0 / 2) = logAcceptRatio := neg_add_eq_sub _ _
    by_cases hu : u < exp logAcceptRatio
    · refine ⟨?_, ?_, ?_⟩
      · simp only [RAHMC.step, h, mul_neg_one, Vec.copy]
        rw [hl]
        simp only [last, next, if_pos hu, List.append_assoc, List.singleton_append]
      · simp only [last, if_pos hu, hu]
      · simp only [last, if_pos hu, hu, not_true_eq_false, iff_false]
        exact fun e => Event.noConfusion e
    · refine ⟨?_, ?_, ?_⟩
      · simp only [RAHMC.step, h, mul_neg_one, Vec.copy]
        rw [hl]
        simp only [last, next, if_neg hu, List.append_assoc, List.singleton_append]
      · simp only [last, if_neg hu, hu, iff_false]
        exact fun e => Event.noConfusion e
      · simp only [last, if_neg hu, hu, not_false_eq_true]
  · intro q trajectory p logAcceptRatio last next
    have hl : -(-self.logDensity q + Vec.norm2 p / 2) +
        (-self.logDensity q0 + Vec.norm2 p0 / 2) = logAcceptRatio := neg_add_eq_sub _ _
    by_cases hu : u < exp logAcceptRatio
    · refine ⟨?_, ?_, ?_⟩
      · simp only [RAHMCSigmoid.step, h, mul_neg_one, Vec.copy]
        rw [hl]
        simp only [last, next, if_pos hu, List.append_assoc, List.singleton_append]
      · simp only [last, if_pos hu, hu]
      · simp only [last, if_pos hu, hu, not_true_eq_false, iff_false]
        exact fun e => Event.noConfusion e
    · refine ⟨?_, ?_, ?_⟩
      · simp only [RAHMCSigmoid.step, h, mul_neg_one, Vec.copy]
        rw [hl]
        simp only [last, next, if_neg hu, List.append_assoc, List.singleton_append]
      · simp only [last, if_neg hu, hu, iff_false]
        exact fun e => Event.noConfusion e
      · simp only [last, if_neg hu, hu, not_false_eq_true]

/-- Witness of C11: the scenario with the draw `u = 0`; the queue receives the proposal
event and then the accept event. -/
theorem queue_events_witness :
    (scenario ℝ).chain.getLast? = some [0] ∧
    RAHMC.step Real.exp (scenario ℝ) { queue := [] } [1] 0 =
      some ({ scenario ℝ with chain := (scenario ℝ).chain ++ [[1 / 10]] },
        { queue := [] ++ [Event.proposal [1 / 10] [[0], [1 / 10]] [1],
            Event.accept [1 / 10]] }) := by
  have h := (queue_events Real.exp (scenario ℝ) { queue := [] } [0] [1] 0 rfl).1.1
  simp only [if_pos (Real.exp_pos _), scenario_integrate Real.exp Real.exp_zero] at h
  exact ⟨rfl, h⟩

/-! ## C12 -/

theorem substep_length (exp : K → K) (self : Self K) (d : Nat)
    (hG : ∀ x : List K, x.length = d → (self.gradLogDensity x).length = d)
    (q p : List K) (hq : q.length = d) (hp : p.length = d) (g : K) :
    (RAHMC.conformalLeapfrogStep exp self q p g).1.length = d ∧
    (RAHMC.conformalLeapfrogStep exp self q p g).2.length = d := by
  rw [substep_formula exp self q p g]
  have l1 : (List.zipWith (fun x d => exp (-g * self.dt / 2) * x + d * (self.dt / 2)) p
      (self.gradLogDensity q)).length = d := by simp [hp, hG q hq]
  have l2 : (List.zipWith (fun x y => x + y * self.dt) q
      (List.zipWith (fun x d => exp (-g * self.dt / 2) * x + d * (self.dt / 2)) p
        (self.gradLogDensity q))).length = d := by simp [hq, hp, hG q hq]
  exact ⟨l2, by simp only [List.length_zipWith, l1, hG _ l2, min_self]⟩

theorem runFrictions_length (exp : K → K) (self : Self K) (d : Nat)
    (hG : ∀ x : List K, x.length = d → (self.gradLogDensity x).length = d) (gs : List K) :
    ∀ q p : List K, q.length = d → p.length = d →
      (runFrictions exp self gs (q, p)).1.length = d ∧
      (runFrictions exp self gs (q, p)).2.length = d := by
  induction gs with
  | nil => intro q p hq hp; exact ⟨hq, hp⟩
  | cons g rest ih =>
    intro q p hq hp
    obtain ⟨l1, l2⟩ := substep_length exp self d hG q p hq hp g
    exact ih _ _ l1 l2

theorem runWork_lengths (exp : K → K) (self : Self K) (d : Nat)
    (hG : ∀ x : List K, x.length = d → (self.gradLogDensity x).length = d) (gs : List K)
    (q0 p0 : List K) (hq : q0.length = d) (hp : p0.length = d) :
    (runWork exp self gs (q0, p0, [q0])).1.length = d ∧
    (runWork exp self gs (q0, p0, [q0])).2.1.length = d ∧
    ∀ t ∈ (runWork exp self gs (q0, p0, [q0])).2.2, t.length = d := by
  have hs := runWork_state exp self gs (q0, p0, [q0])
  have e1 := congrArg Prod.fst hs
  have e2 := congrArg Prod.snd hs
  simp only at e1 e2
  obtain ⟨l1, l2⟩ := runFrictions_length exp self d hG gs q0 p0 hq hp
  refine ⟨by rw [e1]; exact l1, by rw [e2]; exact l2, ?_⟩
  intro t ht
  rw [runWork_trajectory] at ht
  simp only [List.singleton_append, List.mem_cons, List.mem_map, List.mem_range] at ht
  rcases ht with rfl | ⟨i, _, rfl⟩
  · exact hq
  · exact (runFrictions_length exp self d hG _ q0 p0 hq hp).1

theorem runSteps_lengths
    (stepFn : Self K → Visualizer K → List K → K → Option (Self K × Visualizer K)) (d : Nat)
    (hstep : ∀ (self : Self K) (visualizer : Visualizer K) (q0 p0 : List K) (u : K),
      (∀ x : List K, x.length = d → (self.gradLogDensity x).length = d) →
      self.chain.getLast? = some q0 → q0.length = d → p0.length = d →
      ∃ x v, stepFn self visualizer p0 u =
        some ({ self with chain := self.chain ++ [x] }, v) ∧ x.length = d)
    (draws : List (List K × K)) :
    ∀ (self : Self K) (visualizer : Visualizer K),
      (∀ x : List K, x.length = d → (self.gradLogDensity x).length = d) →
      self.chain ≠ [] → (∀ x ∈ self.chain, x.length = d) →
      (∀ pu ∈ draws, pu.1.length = d) →
      ∃ r, runSteps stepFn self visualizer draws = some r ∧
        r.1.chain.length = self.chain.length + draws.length ∧
        ∀ x ∈ r.1.chain, x.length = d := by
  induction draws with
  | nil => intro self visualizer _ _ hc _; exact ⟨_, rfl, rfl, hc⟩
  | cons pu rest ih =>
    intro self visualizer hG hne hc hd
    have hl : self.chain.getLast? = some (self.chain.getLast hne) :=
      List.getLast?_eq_getLast _ hne
    obtain ⟨x, v, hx, hxl⟩ := hstep self visualizer (self.chain.getLast hne) pu.1 pu.2 hG hl
      (hc _ (List.getLast_mem hne)) (hd pu (List.mem_cons_self _ _))
    obtain ⟨r, hr, hlen, hall⟩ := ih { self with chain := self.chain ++ [x] } v hG (by simp)
      (by
        intro y hy
        rcases List.mem_append.mp hy with h1 | h1
        · exact hc y h1
        · rw [List.mem_singleton] at h1
          rw [h1]
          exact hxl)
      (fun pu' h' => hd pu' (List.mem_cons_of_mem _ h'))
    refine ⟨r, ?_, ?_, hall⟩
    · obtain ⟨p0, u⟩ := pu
      simp only [runSteps, hx]
      exact hr
    · have hlen' : r.1.chain.length = (self.chain ++ [x]).length + rest.length := hlen
      rw [hlen', List.length_append, List.length_singleton, List.length_cons]
      omega

theorem split_step_length (exp : K → K) (d : Nat) (self : Self K) (visualizer : Visualizer K)
    (q0 p0 : List K) (u : K)
    (hG : ∀ x : List K, x.length = d → (self.gradLogDensity x).length = d)
    (h : self.chain.getLast? = some q0) (hq : q0.length = d) (hp : p0.length = d) :
    ∃ x v, RAHMC.step exp self visualizer p0 u =
      some ({ self with chain := self.chain ++ [x] }, v) ∧ x.length = d := by
  have hl := (runWork_lengths exp self d hG (RAHMC.frictions self) q0 p0 hq hp).1
  rw [← split_integrate_eq_runWork] at hl
  simp only [RAHMC.step, h]
  split_ifs
  · exact ⟨_, _, rfl, hl⟩
  · exact ⟨_, _, rfl, hq⟩

theorem sigmoid_step_length (exp : K → K) (d : Nat) (self : Self K)
    (visualizer : Visualizer K) (q0 p0 : List K) (u : K)
    (hG : ∀ x : List K, x.length = d → (self.gradLogDensity x).length = d)
    (h : self.chain.getLast? = some q0) (hq : q0.length = d) (hp : p0.length = d) :
    ∃ x v, RAHMCSigmoid.step exp self visualizer p0 u =
      some ({ self with chain := self.chain ++ [x] }, v) ∧ x.length = d := by
  have hl := (runWork_lengths exp self d hG (RAHMCSigmoid.frictions exp self) q0 p0 hq hp).1
  rw [← sigmoid_integrate_eq_runWork] at hl
  simp only [RAHMCSigmoid.step, h]
  split_ifs
  · exact ⟨_, _, rfl, hl⟩
  · exact ⟨_, _, rfl, hq⟩

/-- C12: if the chain's last state `q0` has length `d`, the momentum draw `p0` has length
`d` and `gradLogDensity` maps vectors of length `d` to vectors of length `d`, then in both
variants `q` and `p` have length `d` before and after every sub-step and after the
momentum flip, every trajectory entry has length `d` and the state appended to the chain
has length `d`; when every chain state and every momentum draw has length `d`, this is
still so after any number of steps. -/
theorem dimension_invariant (exp : K → K) (self : Self K) (visualizer : Visualizer K)
    (d : Nat) (q0 p0 : List K) (u : K)
    (hG : ∀ x : List K, x.length = d → (self.gradLogDensity x).length = d)
    (h : self.chain.getLast? = some q0) (hq : q0.length = d) (hp : p0.length = d) :
    ((∀ i : Nat,
        (runFrictions exp self ((RAHMC.frictions self).take i) (q0, p0)).1.length = d ∧
        (runFrictions exp self ((RAHMC.frictions self).take i) (q0, p0)).2.length = d) ∧
      (RAHMC.integrate exp self q0 p0).1.length = d ∧
      (RAHMC.integrate exp self q0 p0).2.1.length = d ∧
      ((RAHMC.integrate exp self q0 p0).2.1.map (fun x => x * -1)).length = d ∧
      (∀ t ∈ (RAHMC.integrate exp self q0 p0).2.2, t.length = d) ∧
      (∃ x v, RAHMC.step exp self visualizer p0 u =
        some ({ self with chain := self.chain ++ [x] }, v) ∧ x.length = d) ∧
      (∀ draws : List (List K × K), (∀ x ∈ self.chain, x.length = d) →
        (∀ pu ∈ draws, pu.1.length = d) →
        ∃ r, runSteps (RAHMC.step exp) self visualizer draws = some r ∧
          r.1.chain.length = self.chain.length + draws.length ∧
          ∀ x ∈ r.1.chain, x.length = d)) ∧
    ((∀ i : Nat,
        (runFrictions exp self ((RAHMCSigmoid.frictions exp self).take i)
          (q0, p0)).1.length = d ∧
        (runFrictions exp self ((RAHMCSigmoid.frictions exp self).take i)
          (q0, p0)).2.length = d) ∧
      (RAHMCSigmoid.integrate exp self q0 p0).1.length = d ∧
      (RAHMCSigmoid.integrate exp self q0 p0).2.1.length = d ∧
      ((RAHMCSigmoid.integrate exp self q0 p0).2.1.map (fun x => x * -1)).length = d ∧
      (∀ t ∈ (RAHMCSigmoid.integrate exp self q0 p0).2.2, t.length = d) ∧
      (∃ x v, RAHMCSigmoid.step exp self visualizer p0 u =
        some ({ self with chain := self.chain ++ [x] }, v) ∧ x.length = d) ∧
      (∀ draws : List (List K × K), (∀ x ∈ self.chain, x.length = d) →
        (∀ pu ∈ draws, pu.1.length = d) →
        ∃ r, runSteps (RAHMCSigmoid.step exp) self visualizer draws = some r ∧
          r.1.chain.length = self.chain.length + draws.length ∧
          ∀ x ∈ r.1.chain, x.length = d)) := by
  have hne : self.chain ≠ [] := by
    intro e
    rw [e] at h
    exact Option.noConfusion h
  obtain ⟨a1, a2, a3⟩ := runWork_lengths exp self d hG (RAHMC.frictions self) q0 p0 hq hp
  obtain ⟨b1, b2, b3⟩ :=
    runWork_lengths exp self d hG (RAHMCSigmoid.frictions exp self) q0 p0 hq hp
  rw [← split_integrate_eq_runWork] at a1 a2 a3
  rw [← sigmoid_integrate_eq_runWork] at b1 b2 b3
  refine ⟨⟨fun i => runFrictions_length exp self d hG _ q0 p0 hq hp, a1, a2,
      by rw [List.length_map]; exact a2, a3,
      split_step_length exp d self visualizer q0 p0 u hG h hq hp, ?_⟩,
    ⟨fun i => runFrictions_length exp self d hG _ q0 p0 hq hp, b1, b2,
      by rw [List.length_map]; exact b2, b3,
      sigmoid_step_length exp d self visualizer q0 p0 u hG h hq hp, ?_⟩⟩
  · intro draws hc hd
    exact runSteps_lengths (RAHMC.step exp) d
      (fun s v q0 p0 u hG h hq hp => split_step_length exp d s v q0 p0 u hG h hq hp)
      draws self visualizer hG hne hc hd
  · intro draws hc hd
    exact runSteps_lengths (RAHMCSigmoid.step exp) d
      (fun s v q0 p0 u hG h hq hp => sigmoid_step_length exp d s v q0 p0 u hG h hq hp)
      draws self visualizer hG hne hc hd

/-- Witness of C12: the scenario has dimension 1; after two steps every chain state has
length 1. -/
theorem dimension_invariant_witness :
    (∀ x : List ℝ, x.length = 1 → ((scenario ℝ).gradLogDensity x).length = 1) ∧
    (scenario ℝ).chain.getLast? = some [0] ∧
    ([0] : List ℝ).length = 1 ∧ ([1] : List ℝ).length = 1 ∧
    ∃ r, runSteps (RAHMC.step Real.exp) (scenario ℝ) { queue := [] }
        [([1], 0), ([2], 1)] = some r ∧
      r.1.chain.length = (scenario ℝ).chain.length + 2 ∧ ∀ x ∈ r.1.chain, x.length = 1 :=
  ⟨fun x hx => by simpa [scenario] using hx, rfl, rfl, rfl,
    (dimension_invariant Real.exp (scenario ℝ) { queue := [] } 1 [0] [1] 0
      (fun x hx => by simpa [scenario] using hx) rfl rfl rfl).1.2.2.2.2.2.2
      [([1], 0), ([2], 1)] (by simp [scenario]) (by simp)⟩

/-! ## C13 -/

theorem split_step_total (exp : K → K) (self : Self K) (visualizer : Visualizer K)
    (p0 : List K) (u : K) (h : self.chain ≠ []) :
    ∃ x e1 e2, RAHMC.step exp self visualizer p0 u =
      some ({ self with chain := self.chain ++ [x] },
        { queue := visualizer.queue ++ [e1, e2] }) := by
  obtain ⟨q0, hq0⟩ : ∃ q0, self.chain.getLast? = some q0 :=
    ⟨self.chain.getLast h, List.getLast?_eq_getLast _ h⟩
  simp only [RAHMC.step, hq0, List.append_assoc, List.singleton_append]
  split_ifs
  · exact ⟨_, _, _, rfl⟩
  · exact ⟨_, _, _, rfl⟩

theorem sigmoid_step_total (exp : K → K) (self : Self K) (visualizer : Visualizer K)
    (p0 : List K) (u : K) (h : self.chain ≠ []) :
    ∃ x e1 e2, RAHMCSigmoid.step exp self visualizer p0 u =
      some ({ self with chain := self.chain ++ [x] },
        { queue := visualizer.queue ++ [e1, e2] }) := by
  obtain ⟨q0, hq0⟩ : ∃ q0, self.chain.getLast? = some q0 :=
    ⟨self.chain.getLast h, List.getLast?_eq_getLast _ h⟩
  simp only [RAHMCSigmoid.step, hq0, List.append_assoc, List.singleton_append]
  split_ifs
  · exact ⟨_, _, _, rfl⟩
  · exact ⟨_, _, _, rfl⟩

theorem split_frictions_nonpos (self : Self K) (h : self.leapfrogSteps ≤ 0) :
    RAHMC.frictions self = [] := by
  rw [split_frictions_eq]
  have h1 : (self.leapfrogSteps / 2).toNat = 0 := by omega
  have h2 : (self.leapfrogSteps - self.leapfrogSteps / 2).toNat = 0 := by omega
  rw [h1, h2]
  rfl

theorem sigmoid_frictions_nonpos (exp : K → K) (self : Self K)
    (h : self.leapfrogSteps ≤ 0) : RAHMCSigmoid.frictions exp self = [] := by
  have h1 : self.leapfrogSteps.toNat = 0 := by omega
  simp only [RAHMCSigmoid.frictions, h1, List.range_zero, List.map_nil]

/-- C13 as stated fails: there is no configuration check.  With `leapfrogSteps = 0`, with
`dt = -1`, with `gamma = -1` and, in the Sigmoid variant, with `steepness = -1`, `step` on
the scenario's chain reports no error and returns a chain and a queue that have grown. -/
theorem validation_counterexample :
    (∃ r, RAHMC.step Real.exp { scenario ℝ with leapfrogSteps := 0 } { queue := [] } [1] 0 =
        some r ∧ r.1.chain.length = 2 ∧ r.2.queue.length = 2) ∧
    (∃ r, RAHMC.step Real.exp { scenario ℝ with dt := -1 } { queue := [] } [1] 0 =
        some r ∧ r.1.chain.length = 2 ∧ r.2.queue.length = 2) ∧
    (∃ r, RAHMC.step Real.exp { scenario ℝ with gamma := -1 } { queue := [] } [1] 0 =
        some r ∧ r.1.chain.length = 2 ∧ r.2.queue.length = 2) ∧
    (∃ r, RAHMCSigmoid.step Real.exp { scenario ℝ with steepness := -1 } { queue := [] }
        [1] 0 = some r ∧ r.1.chain.length = 2 ∧ r.2.queue.length = 2) := by
  refine ⟨?_, ?_, ?_, ?_⟩
  · obtain ⟨x, e1, e2, hx⟩ := split_step_total Real.exp
      { scenario ℝ with leapfrogSteps := 0 } { queue := [] } [1] 0 (List.cons_ne_nil _ _)
    exact ⟨_, hx, rfl, rfl⟩
  · obtain ⟨x, e1, e2, hx⟩ := split_step_total Real.exp
      { scenario ℝ with dt := -1 } { queue := [] } [1] 0 (List.cons_ne_nil _ _)
    exact ⟨_, hx, rfl, rfl⟩
  · obtain ⟨x, e1, e2, hx⟩ := split_step_total Real.exp
      { scenario ℝ with gamma := -1 } { queue := [] } [1] 0 (List.cons_ne_nil _ _)
    exact ⟨_, hx, rfl, rfl⟩
  · obtain ⟨x, e1, e2, hx⟩ := sigmoid_step_total Real.exp
      { scenario ℝ with steepness := -1 } { queue := [] } [1] 0 (List.cons_ne_nil _ _)
    exact ⟨_, hx, rfl, rfl⟩

/-- C13 (amended): `step` makes no configuration check.  For every configuration, also with
`leapfrogSteps <= 0`, `dt <= 0`, `gamma < 0` or `steepness < 0`, `step` on a non-empty
chain reports no error, appends one state to the chain and two events to the visualizer
queue; with `leapfrogSteps <= 0` it runs no sub-step. -/
theorem no_configuration_check (exp : K → K) (self : Self K) (visualizer : Visualizer K)
    (p0 : List K) (u : K) (h : self.chain ≠ []) :
    (∃ x e1 e2, RAHMC.step exp self visualizer p0 u =
      some ({ self with chain := self.chain ++ [x] },
        { queue := visualizer.queue ++ [e1, e2] })) ∧
    (∃ x e1 e2, RAHMCSigmoid.step exp self visualizer p0 u =
      some ({ self with chain := self.chain ++ [x] },
        { queue := visualizer.queue ++ [e1, e2] })) ∧
    (self.leapfrogSteps ≤ 0 →
      RAHMC.frictions self = [] ∧ RAHMCSigmoid.frictions exp self = [] ∧
      ∀ q0 : List K, RAHMC.integrate exp self q0 p0 = (q0, p0, [q0]) ∧
        RAHMCSigmoid.integrate exp self q0 p0 = (q0, p0, [q0])) := by
  refine ⟨split_step_total exp self visualizer p0 u h,
    sigmoid_step_total exp self visualizer p0 u h, fun hL => ?_⟩
  have f1 := split_frictions_nonpos self hL
  have f2 := sigmoid_frictions_nonpos exp self hL
  refine ⟨f1, f2, fun q0 => ⟨?_, ?_⟩⟩
  · rw [split_integrate_eq_runWork, f1]; rfl
  · rw [sigmoid_integrate_eq_runWork, f2]; rfl

/-- Witness of C13 (amended): the scenario with `leapfrogSteps = -3`. -/
theorem no_configuration_check_witness :
    ({ scenario ℝ with leapfrogSteps := -3 } : Self ℝ).chain ≠ [] ∧
    ({ scenario ℝ with leapfrogSteps := -3 } : Self ℝ).leapfrogSteps ≤ 0 ∧
    RAHMC.frictions ({ scenario ℝ with leapfrogSteps := -3 } : Self ℝ) = [] :=
  ⟨List.cons_ne_nil _ _, by decide,
    ((no_configuration_check Real.exp { scenario ℝ with leapfrogSteps := -3 }
      { queue := [] } [1] 0 (List.cons_ne_nil _ _)).2.2 (by decide)).1⟩

/-! ## C16 -/

/-- C16: for vectors of dimension `d` and a gradient that keeps the dimension, one
conformal leapfrog sub-step, in either variant, is reversible under a momentum flip
combined with a friction sign flip: if the sub-step with friction `g` maps `(q, p)` to
`(q', p')`, the sub-step with friction `-g` maps `(q', -p')` to `(q, -p)`. -/
theorem substep_reversible (self : Self ℝ) (d : Nat)
    (hG : ∀ x : List ℝ, x.length = d → (self.gradLogDensity x).length = d)
    (q p : List ℝ) (hq : q.length = d) (hp : p.length = d) (g : ℝ) :
    RAHMC.conformalLeapfrogStep Real.exp self
      (RAHMC.conformalLeapfrogStep Real.exp self q p g).1
      ((RAHMC.conformalLeapfrogStep Real.exp self q p g).2.map (fun x => -x)) (-g) =
      (q, p.map (fun x => -x)) ∧
    RAHMCSigmoid.conformalLeapfrogStep Real.exp self
      (RAHMCSigmoid.conformalLeapfrogStep Real.exp self q p g).1
      ((RAHMCSigmoid.conformalLeapfrogStep Real.exp self q p g).2.map (fun x => -x)) (-g) =
      (q, p.map (fun x => -x)) := by
  have h := (substep_reverse self d hG q p hq hp g).2.2
  exact ⟨h, by simp only [substep_eq]; exact h⟩

/-- Witness of C16: the scenario with friction, dimension 1, friction 2. -/
theorem substep_reversible_witness :
    (∀ x : List ℝ, x.length = 1 → ((frictionScenario ℝ).gradLogDensity x).length = 1) ∧
    ([0] : List ℝ).length = 1 ∧ ([1] : List ℝ).length = 1 ∧
    RAHMC.conformalLeapfrogStep Real.exp (frictionScenario ℝ)
      (RAHMC.conformalLeapfrogStep Real.exp (frictionScenario ℝ) [0] [1] 2).1
      ((RAHMC.conformalLeapfrogStep Real.exp (frictionScenario ℝ) [0] [1] 2).2.map
        (fun x => -x)) (-2) = ([0], [-1]) :=
  ⟨fun x hx => by simpa [frictionScenario, scenario] using hx, rfl, rfl,
    by simpa using (substep_reversible (frictionScenario ℝ) 1
      (fun x hx => by simpa [frictionScenario, scenario] using hx) [0] [1] rfl rfl 2).1⟩

/-! ## C17 -/

theorem split_frictions_even (self : Self ℝ) (h : self.leapfrogSteps % 2 = 0) :
    (RAHMC.frictions self).reverse.map (fun g => -g) = RAHMC.frictions self := by
  rw [split_frictions_eq]
  have e : (self.leapfrogSteps - self.leapfrogSteps / 2).toNat =
      (self.leapfrogSteps / 2).toNat := by omega
  rw [e]
  simp only [List.reverse_append, List.reverse_replicate, List.map_append, List.map_replicate,
    neg_neg]

theorem split_scale_product (self : Self ℝ) (h : self.leapfrogSteps % 2 = 0) :
    ((RAHMC.frictions self).map
      (fun g => Real.exp (-g * self.dt / 2) * Real.exp (-g * self.dt / 2))).prod = 1 := by
  rw [split_frictions_eq]
  have e : (self.leapfrogSteps - self.leapfrogSteps / 2).toNat =
      (self.leapfrogSteps / 2).toNat := by omega
  rw [e]
  simp only [List.map_append, List.map_replicate, List.prod_append, List.prod_replicate]
  rw [← mul_pow]
  have h1 : Real.exp (- -self.gamma * self.dt / 2) * Real.exp (- -self.gamma * self.dt / 2) *
      (Real.exp (-self.gamma * self.dt / 2) * Real.exp (-self.gamma * self.dt / 2)) = 1 := by
    rw [← Real.exp_add, ← Real.exp_add, ← Real.exp_add]
    have h0 : - -self.gamma * self.dt / 2 + - -self.gamma * self.dt / 2 +
        (-self.gamma * self.dt / 2 + -self.gamma * self.dt / 2) = 0 := by ring
    rw [h0, Real.exp_zero]
  rw [h1, one_pow]

/-- C17: for the RAHMC (Split) variant with even `leapfrogSteps`, vectors of dimension `d`
and a gradient that keeps the dimension, the proposal map `F(q0, p0) = (q, p)` (all
sub-steps, then the momentum flip) is an involution, `F(F(q0, p0)) = (q0, p0)`, and the
product of the momentum scale factors applied along one trajectory, two per sub-step, is
1. -/
theorem split_even_involution (self : Self ℝ) (d : Nat)
    (hG : ∀ x : List ℝ, x.length = d → (self.gradLogDensity x).length = d)
    (q0 p0 : List ℝ) (hq : q0.length = d) (hp : p0.length = d)
    (hL : self.leapfrogSteps % 2 = 0) :
    RAHMC.proposal Real.exp self (RAHMC.proposal Real.exp self (q0, p0)) = (q0, p0) ∧
    ((RAHMC.frictions self).map
      (fun g => Real.exp (-g * self.dt / 2) * Real.exp (-g * self.dt / 2))).prod = 1 := by
  refine ⟨?_, split_scale_product self hL⟩
  have hs : ∀ q p : List ℝ, ((RAHMC.integrate Real.exp self q p).1,
      (RAHMC.integrate Real.exp self q p).2.1) =
      runFrictions Real.exp self (RAHMC.frictions self) (q, p) := by
    intro q p
    rw [split_integrate_eq_runWork]
    exact runWork_state Real.exp self (RAHMC.frictions self) (q, p, [q])
  have hr := runFrictions_reverse self d hG (RAHMC.frictions self) q0 p0 hq hp
  rw [split_frictions_even self hL, ← hs q0 p0] at hr
  have hr' := hs (RAHMC.integrate Real.exp self q0 p0).1
    ((RAHMC.integrate Real.exp self q0 p0).2.1.map (fun x => -x))
  rw [hr] at hr'
  have e1 := congrArg Prod.fst hr'
  have e2 := congrArg Prod.snd hr'
  simp only at e1 e2
  simp only [RAHMC.proposal, mul_neg_one]
  rw [e1, e2]
  simp

/-- Witness of C17: the scenario with friction and two leapfrog steps, dimension 1. -/
theorem split_even_involution_witness :
    (∀ x : List ℝ, x.length = 1 →
      (({ frictionScenario ℝ with leapfrogSteps := 2 } : Self ℝ).gradLogDensity x).length
        = 1) ∧
    ([0] : List ℝ).length = 1 ∧ ([1] : List ℝ).length = 1 ∧
    ({ frictionScenario ℝ with leapfrogSteps := 2 } : Self ℝ).leapfrogSteps % 2 = 0 ∧
    RAHMC.proposal Real.exp { frictionScenario ℝ with leapfrogSteps := 2 }
      (RAHMC.proposal Real.exp { frictionScenario ℝ with leapfrogSteps := 2 } ([0], [1])) =
      ([0], [1]) :=
  ⟨fun x hx => by simpa [frictionScenario, scenario] using hx, rfl, rfl, by decide,
    (split_even_involution { frictionScenario ℝ with leapfrogSteps := 2 } 1
      (fun x hx => by simpa [frictionScenario, scenario] using hx) [0] [1] rfl rfl
      (by decide)).1⟩

/-! ## C19 -/

theorem norm2_flip (p : List K) : Vec.norm2 (p.map (fun x => x * -1)) = Vec.norm2 p := by
  simp only [Vec.norm2, List.map_map]
  congr 1
  apply List.map_congr_left
  intro x _
  simp

/-- C19: with `leapfrogSteps = 0`, in either variant, `step` runs no sub-step: the
trajectory is `[q0]`, the proposal `q` is `q0`, the momentum after the flip is `-p0`,
`H` equals `H0` and the `logAcceptRatio` that `step` computes is 0; `step` accepts exactly
when `u < exp(0) = 1`, so for every uniform draw `u` in `[0, 1)` the proposal is accepted,
an `accept` event is queued after the `proposal` event and a copy of `q0` is appended to
the chain. -/
theorem zero_steps (self : Self ℝ) (visualizer : Visualizer ℝ) (q0 p0 : List ℝ) (u : ℝ)
    (hL : self.leapfrogSteps = 0) (h : self.chain.getLast? = some q0) :
    RAHMC.integrate Real.exp self q0 p0 = (q0, p0, [q0]) ∧
    RAHMCSigmoid.integrate Real.exp self q0 p0 = (q0, p0, [q0]) ∧
    RAHMC.proposal Real.exp self (q0, p0) = (q0, p0.map (fun x => -x)) ∧
    RAHMC.energies Real.exp self q0 p0 =
      (-self.logDensity q0 + Vec.norm2 p0 / 2, -self.logDensity q0 + Vec.norm2 p0 / 2, 0) ∧
    RAHMCSigmoid.energies Real.exp self q0 p0 =
      (-self.logDensity q0 + Vec.norm2 p0 / 2, -self.logDensity q0 + Vec.norm2 p0 / 2, 0) ∧
    RAHMC.step Real.exp self visualizer p0 u =
      (if u < Real.exp (RAHMC.energies Real.exp self q0 p0).2.2 then
        some ({ self with chain := self.chain ++ [q0] },
          { queue := visualizer.queue ++ [Event.proposal q0 [q0] p0, Event.accept q0] })
      else
        some ({ self with chain := self.chain ++ [q0] },
          { queue := visualizer.queue ++ [Event.proposal q0 [q0] p0, Event.reject q0] })) ∧
    RAHMCSigmoid.step Real.exp self visualizer p0 u =
      (if u < Real.exp (RAHMCSigmoid.energies Real.exp self q0 p0).2.2 then
        some ({ self with chain := self.chain ++ [q0] },
          { queue := visualizer.queue ++ [Event.proposal q0 [q0] p0, Event.accept q0] })
      else
        some ({ self with chain := self.chain ++ [q0] },
          { queue := visualizer.queue ++ [Event.proposal q0 [q0] p0, Event.reject q0] })) ∧
    RAHMC.step Real.exp self visualizer p0 u =
      (if u < 1 then
        some ({ self with chain := self.chain ++ [q0] },
          { queue := visualizer.queue ++ [Event.proposal q0 [q0] p0, Event.accept q0] })
      else
        some ({ self with chain := self.chain ++ [q0] },
          { queue := visualizer.queue ++ [Event.proposal q0 [q0] p0, Event.reject q0] })) ∧
    RAHMCSigmoid.step Real.exp self visualizer p0 u =
      (if u < 1 then
        some ({ self with chain := self.chain ++ [q0] },
          { queue := visualizer.queue ++ [Event.proposal q0 [q0] p0, Event.accept q0] })
      else
        some ({ self with chain := self.chain ++ [q0] },
          { queue := visualizer.queue ++ [Event.proposal q0 [q0] p0, Event.reject q0] })) ∧
    (u < 1 →
      RAHMC.step Real.exp self visualizer p0 u =
        some ({ self with chain := self.chain ++ [q0] },
          { queue := visualizer.queue ++ [Event.proposal q0 [q0] p0, Event.accept q0] }) ∧
      RAHMCSigmoid.step Real.exp self visualizer p0 u =
        some ({ self with chain := self.chain ++ [q0] },
          { queue := visualizer.queue ++ [Event.proposal q0 [q0] p0, Event.accept q0] })) := by
  have i1 : RAHMC.integrate Real.exp self q0 p0 = (q0, p0, [q0]) := by
    rw [split_integrate_eq_runWork, split_frictions_nonpos self (le_of_eq hL)]; rfl
  have i2 : RAHMCSigmoid.integrate Real.exp self q0 p0 = (q0, p0, [q0]) := by
    rw [sigmoid_integrate_eq_runWork, sigmoid_frictions_nonpos Real.exp self (le_of_eq hL)]
    rfl
  have e1 : RAHMC.energies Real.exp self q0 p0 =
      (-self.logDensity q0 + Vec.norm2 p0 / 2,
        -self.logDensity q0 + Vec.norm2 p0 / 2, 0) := by
    simp only [RAHMC.energies, i1, norm2_flip, neg_add_cancel]
  have e2 : RAHMCSigmoid.energies Real.exp self q0 p0 =
      (-self.logDensity q0 + Vec.norm2 p0 / 2,
        -self.logDensity q0 + Vec.norm2 p0 / 2, 0) := by
    simp only [RAHMCSigmoid.energies, i2, norm2_flip, neg_add_cancel]
  have s1 := split_step_energies Real.exp self visualizer q0 p0 u h
  have s2 := sigmoid_step_energies Real.exp self visualizer q0 p0 u h
  rw [i1] at s1
  rw [i2] at s2
  have t1 := s1
  have t2 := s2
  rw [e1] at t1
  rw [e2] at t2
  simp only [Real.exp_zero] at t1 t2
  refine ⟨i1, i2, ?_, e1, e2, s1, s2, t1, t2, fun hu => ?_⟩
  · simp only [RAHMC.proposal, i1, mul_neg_one]
  · rw [t1, t2, if_pos hu]
    exact ⟨rfl, rfl⟩

/-- Witness of C19: the scenario with `leapfrogSteps = 0` and the draw `u = 0.5`. -/
theorem zero_steps_witness :
    ({ scenario ℝ with leapfrogSteps := 0 } : Self ℝ).leapfrogSteps = 0 ∧
    ({ scenario ℝ with leapfrogSteps := 0 } : Self ℝ).chain.getLast? = some [0] ∧
    (0.5 : ℝ) < 1 ∧
    RAHMC.step Real.exp { scenario ℝ with leapfrogSteps := 0 } { queue := [] } [1] 0.5 =
      some ({ scenario ℝ with leapfrogSteps := 0, chain := [[0]] ++ [[0]] },
        { queue := [] ++ [Event.proposal [0] [[0]] [1], Event.accept [0]] }) :=
  ⟨rfl, rfl, by norm_num,
    ((zero_steps { scenario ℝ with leapfrogSteps := 0 } { queue := [] } [0] [1] 0.5 rfl
      rfl).2.2.2.2.2.2.2.2.2 (by norm_num)).1⟩

/-! ## C18 -/

theorem sig_odd (x : ℝ) :
    2.0 / (1.0 + Real.exp (- -x)) - 1.0 = -(2.0 / (1.0 + Real.exp (-x)) - 1.0) := by
  have hx := Real.exp_pos x
  rw [neg_neg, Real.exp_neg]
  field_simp
  ring

theorem list_sum_range (f : Nat → ℝ) (n : Nat) :
    ((List.range n).map f).sum = ∑ i in Finset.range n, f i := by
  induction n with
  | zero => simp
  | succ n ih => rw [List.sum_range_succ, Finset.sum_range_succ, ih]

theorem gamma_t_reflect (self : Self ℝ) (hdt : 0 < self.dt) (hL : 1 ≤ self.leapfrogSteps)
    (s : Nat) (hs : (s : Int) ≤ self.leapfrogSteps) :
    RAHMCSigmoid.gamma_t Real.exp self (self.leapfrogSteps.toNat - s) =
      -RAHMCSigmoid.gamma_t Real.exp self s := by
  have hn : ((self.leapfrogSteps.toNat : Int) : ℝ) = (self.leapfrogSteps : ℝ) := by
    rw [Int.toNat_of_nonneg (by omega)]
  have hn' : (self.leapfrogSteps.toNat : ℝ) = (self.leapfrogSteps : ℝ) := by
    rw [← hn]; norm_cast
  have hLr : (0 : ℝ) < (self.leapfrogSteps : ℝ) := by
    have : (1 : ℝ) ≤ (self.leapfrogSteps : ℝ) := by exact_mod_cast hL
    linarith
  have hle : s ≤ self.leapfrogSteps.toNat := by omega
  rw [gamma_t_eq self hdt hL, gamma_t_eq self hdt hL, Nat.cast_sub hle, hn']
  have e : self.steepness * ((2 * ((self.leapfrogSteps : ℝ) - (s : ℝ)) -
      (self.leapfrogSteps : ℝ)) / (2 * (self.leapfrogSteps : ℝ))) =
      -(self.steepness * ((2 * (s : ℝ) - (self.leapfrogSteps : ℝ)) /
        (2 * (self.leapfrogSteps : ℝ)))) := by
    field_simp
    ring
  rw [e, sig_odd]
  ring

theorem gamma_t_zero (self : Self ℝ) :
    RAHMCSigmoid.gamma_t Real.exp self 0 =
      self.gamma * (2 / (1 + Real.exp (self.steepness / 2)) - 1) := by
  simp only [RAHMCSigmoid.gamma_t, RAHMCSigmoid.gammaAt]
  have e : -(self.steepness * (((0 : Nat) : ℝ) * self.dt / RAHMCSigmoid.totalTime self - 0.5)) =
      self.steepness / 2 := by
    norm_num
    ring
  rw [e]
  norm_num

theorem gamma_t_zero_neg (self : Self ℝ) (hg : 0 < self.gamma) (hk : 0 < self.steepness) :
    RAHMCSigmoid.gamma_t Real.exp self 0 < 0 := by
  rw [gamma_t_zero]
  have h1 : (1 : ℝ) < Real.exp (self.steepness / 2) := Real.one_lt_exp_iff.mpr (by linarith)
  have hp : (0 : ℝ) < 1 + Real.exp (self.steepness / 2) := by linarith
  have h2 : 2 / (1 + Real.exp (self.steepness / 2)) < 1 := by
    rw [div_lt_one hp]; linarith
  nlinarith

theorem sigmoid_frictions_sum (self : Self ℝ) (hdt : 0 < self.dt)
    (hL : 1 ≤ self.leapfrogSteps) :
    (RAHMCSigmoid.frictions Real.exp self).sum = RAHMCSigmoid.gamma_t Real.exp self 0 := by
  obtain ⟨m, hm⟩ : ∃ m : Nat, self.leapfrogSteps.toNat = m + 1 :=
    ⟨self.leapfrogSteps.toNat - 1, by omega⟩
  simp only [RAHMCSigmoid.frictions]
  rw [list_sum_range, hm, Finset.sum_range_succ']
  have hz : ∑ j in Finset.range m, RAHMCSigmoid.gamma_t Real.exp self (j + 1) = 0 := by
    have hr := Finset.sum_range_reflect
      (fun j => RAHMCSigmoid.gamma_t Real.exp self (j + 1)) m
    have hneg : ∑ j in Finset.range m, RAHMCSigmoid.gamma_t Real.exp self (m - 1 - j + 1) =
        ∑ j in Finset.range m, -RAHMCSigmoid.gamma_t Real.exp self (j + 1) := by
      apply Finset.sum_congr rfl
      intro j hj
      rw [Finset.mem_range] at hj
      have e : m - 1 - j + 1 = self.leapfrogSteps.toNat - (j + 1) := by omega
      rw [e]
      exact gamma_t_reflect self hdt hL (j + 1) (by omega)
    rw [hneg, Finset.sum_neg_distrib] at hr
    linarith
  rw [hz, zero_add]

theorem gamma_t_lt (self : Self ℝ) (hg : 0 < self.gamma) (hk : 0 < self.steepness)
    (hdt : 0 < self.dt) (hL : 1 ≤ self.leapfrogSteps) (s s' : Nat) (hss : s < s') :
    RAHMCSigmoid.gamma_t Real.exp self s < RAHMCSigmoid.gamma_t Real.exp self s' := by
  have hLr : (0 : ℝ) < (self.leapfrogSteps : ℝ) := by
    have : (1 : ℝ) ≤ (self.leapfrogSteps : ℝ) := by exact_mod_cast hL
    linarith
  have h2L : (0 : ℝ) < 2 * (self.leapfrogSteps : ℝ) := by linarith
  rw [gamma_t_eq self hdt hL s, gamma_t_eq self hdt hL s']
  have hc : (s : ℝ) < (s' : ℝ) := by exact_mod_cast hss
  have hx : self.steepness *
      ((2 * (s : ℝ) - (self.leapfrogSteps : ℝ)) / (2 * (self.leapfrogSteps : ℝ))) <
      self.steepness *
      ((2 * (s' : ℝ) - (self.leapfrogSteps : ℝ)) / (2 * (self.leapfrogSteps : ℝ))) := by
    apply mul_lt_mul_of_pos_left _ hk
    apply div_lt_div_of_pos_right _ h2L
    linarith
  have := sig_strictMono hx
  nlinarith

/-- C18: in the RAHMC-Sigmoid step with `dt > 0` and `leapfrogSteps = L >= 1`, the
frictions of sub-steps `s` and `L - s` cancel for `1 <= s <= L - 1`, so the sum of the
frictions of all `L` sub-steps is the friction of sub-step 0,
`gamma * (2 / (1 + exp(steepness/2)) - 1)`, which is strictly negative when `gamma > 0`
and `steepness > 0`; reversing the sub-step order gives
`gamma_{L-1-s} = -gamma_{s+1}`, which is not `-gamma_s`. -/
theorem sigmoid_friction_sum (self : Self ℝ) (hdt : 0 < self.dt)
    (hL : 1 ≤ self.leapfrogSteps) :
    (∀ s : Nat, 1 ≤ s → (s : Int) ≤ self.leapfrogSteps - 1 →
      RAHMCSigmoid.gamma_t Real.exp self s =
        -RAHMCSigmoid.gamma_t Real.exp self (self.leapfrogSteps.toNat - s)) ∧
    (RAHMCSigmoid.frictions Real.exp self).sum = RAHMCSigmoid.gamma_t Real.exp self 0 ∧
    RAHMCSigmoid.gamma_t Real.exp self 0 =
      self.gamma * (2 / (1 + Real.exp (self.steepness / 2)) - 1) ∧
    (0 < self.gamma → 0 < self.steepness →
      (RAHMCSigmoid.frictions Real.exp self).sum < 0) ∧
    (∀ s : Nat, (s : Int) + 1 ≤ self.leapfrogSteps →
      RAHMCSigmoid.gamma_t Real.exp self (self.leapfrogSteps.toNat - 1 - s) =
        -RAHMCSigmoid.gamma_t Real.exp self (s + 1)) ∧
    (0 < self.gamma → 0 < self.steepness →
      ∀ s : Nat, (s : Int) + 1 ≤ self.leapfrogSteps →
        RAHMCSigmoid.gamma_t Real.exp self (self.leapfrogSteps.toNat - 1 - s) ≠
          -RAHMCSigmoid.gamma_t Real.exp self s) := by
  have hsum := sigmoid_frictions_sum self hdt hL
  have hrev : ∀ s : Nat, (s : Int) + 1 ≤ self.leapfrogSteps →
      RAHMCSigmoid.gamma_t Real.exp self (self.leapfrogSteps.toNat - 1 - s) =
        -RAHMCSigmoid.gamma_t Real.exp self (s + 1) := by
    intro s hs
    have e : self.leapfrogSteps.toNat - 1 - s = self.leapfrogSteps.toNat - (s + 1) := by omega
    rw [e]
    exact gamma_t_reflect self hdt hL (s + 1) (by push_cast; omega)
  refine ⟨?_, hsum, gamma_t_zero self, ?_, hrev, ?_⟩
  · intro s _ hs
    rw [gamma_t_reflect self hdt hL s (by omega), neg_neg]
  · intro hg hk
    rw [hsum]
    exact gamma_t_zero_neg self hg hk
  · intro hg hk s hs
    rw [hrev s hs]
    have hlt := gamma_t_lt self hg hk hdt hL s (s + 1) (Nat.lt_succ_self s)
    intro e
    linarith

/-- Witness of C18: the default configuration of RAHMC-Sigmoid.js; the forty frictions sum
to a negative number. -/
theorem sigmoid_friction_sum_witness :
    0 < (RAHMCSigmoid.init (scenario ℝ)).dt ∧
    1 ≤ (RAHMCSigmoid.init (scenario ℝ)).leapfrogSteps ∧
    0 < (RAHMCSigmoid.init (scenario ℝ)).gamma ∧
    0 < (RAHMCSigmoid.init (scenario ℝ)).steepness ∧
    (RAHMCSigmoid.frictions Real.exp (RAHMCSigmoid.init (scenario ℝ))).sum < 0 := by
  have hg : 0 < (RAHMCSigmoid.init (scenario ℝ)).gamma := by
    simp [RAHMCSigmoid.init]; norm_num
  have hk : 0 < (RAHMCSigmoid.init (scenario ℝ)).steepness := by
    simp [RAHMCSigmoid.init]; norm_num
  have hdt : 0 < (RAHMCSigmoid.init (scenario ℝ)).dt := by
    simp [RAHMCSigmoid.init]; norm_num
  have hL : 1 ≤ (RAHMCSigmoid.init (scenario ℝ)).leapfrogSteps := by decide
  exact ⟨hdt, hL, hg, hk,
    (sigmoid_friction_sum (RAHMCSigmoid.init (scenario ℝ)) hdt hL).2.2.2.1 hg hk⟩

/-! ## C15 -/

theorem sig_tendsto_pos (c : ℝ) (hc : 0 < c) :
    Filter.Tendsto (fun k : ℝ => 2.0 / (1.0 + Real.exp (-(k * c))) - 1.0) Filter.atTop
      (nhds 1) := by
  have h1 : Filter.Tendsto (fun k : ℝ => k * c) Filter.atTop Filter.atTop :=
    Filter.Tendsto.atTop_mul_const hc Filter.tendsto_id
  have h2 : Filter.Tendsto (fun k : ℝ => Real.exp (-(k * c))) Filter.atTop (nhds 0) :=
    Real.tendsto_exp_neg_atTop_nhds_zero.comp h1
  have h3 : Filter.Tendsto (fun k : ℝ => 1.0 + Real.exp (-(k * c))) Filter.atTop
      (nhds (1.0 + 0)) := tendsto_const_nhds.add h2
  have h4 : Filter.Tendsto (fun k : ℝ => 2.0 / (1.0 + Real.exp (-(k * c)))) Filter.atTop
      (nhds (2.0 / (1.0 + 0))) := tendsto_const_nhds.div h3 (by norm_num)
  have h5 := h4.sub (tendsto_const_nhds :
    Filter.Tendsto (fun _ : ℝ => (1.0 : ℝ)) Filter.atTop (nhds 1.0))
  have e : (2.0 : ℝ) / (1.0 + 0) - 1.0 = 1 := by norm_num
  rw [e] at h5
  exact h5

theorem sig_tendsto_neg (c : ℝ) (hc : c < 0) :
    Filter.Tendsto (fun k : ℝ => 2.0 / (1.0 + Real.exp (-(k * c))) - 1.0) Filter.atTop
      (nhds (-1)) := by
  have h1 : Filter.Tendsto (fun k : ℝ => -(k * c)) Filter.atTop Filter.atTop := by
    have h := Filter.Tendsto.atTop_mul_const (neg_pos.mpr hc) (Filter.tendsto_id : Filter.Tendsto (id : ℝ → ℝ) Filter.atTop Filter.atTop)
    refine h.congr (fun k => ?_)
    simp
  have h2 : Filter.Tendsto (fun k : ℝ => Real.exp (-(k * c))) Filter.atTop Filter.atTop :=
    Real.tendsto_exp_atTop.comp h1
  have h3 : Filter.Tendsto (fun k : ℝ => 1.0 + Real.exp (-(k * c))) Filter.atTop
      Filter.atTop := Filter.tendsto_atTop_add_const_left _ _ h2
  have h4 : Filter.Tendsto (fun k : ℝ => 2.0 / (1.0 + Real.exp (-(k * c)))) Filter.atTop
      (nhds 0) := (tendsto_const_nhds :
        Filter.Tendsto (fun _ : ℝ => (2.0 : ℝ)) Filter.atTop (nhds 2.0)).div_atTop h3
  have h5 := h4.sub (tendsto_const_nhds :
    Filter.Tendsto (fun _ : ℝ => (1.0 : ℝ)) Filter.atTop (nhds 1.0))
  have e : (0 : ℝ) - 1.0 = -1 := by norm_num
  rw [e] at h5
  exact h5

theorem gamma_t_steepness (self : Self ℝ) (hdt : 0 < self.dt) (hL : 1 ≤ self.leapfrogSteps)
    (s : Nat) (k : ℝ) :
    RAHMCSigmoid.gamma_t Real.exp { self with steepness := k } s =
      self.gamma * (2.0 / (1.0 + Real.exp (-(k *
        ((2 * (s : ℝ) - (self.leapfrogSteps : ℝ)) / (2 * (self.leapfrogSteps : ℝ)))))) - 1.0) :=
  gamma_t_eq { self with steepness := k } hdt hL s

theorem gamma_t_tendsto_pos (self : Self ℝ) (hdt : 0 < self.dt)
    (hL : 1 ≤ self.leapfrogSteps) (s : Nat) (hs : self.leapfrogSteps < 2 * (s : Int)) :
    Filter.Tendsto (fun k : ℝ => RAHMCSigmoid.gamma_t Real.exp { self with steepness := k } s)
      Filter.atTop (nhds self.gamma) := by
  have hLr : (0 : ℝ) < (self.leapfrogSteps : ℝ) := by
    have : (1 : ℝ) ≤ (self.leapfrogSteps : ℝ) := by exact_mod_cast hL
    linarith
  have hc : (self.leapfrogSteps : ℝ) < 2 * (s : ℝ) := by exact_mod_cast hs
  have h := (sig_tendsto_pos ((2 * (s : ℝ) - (self.leapfrogSteps : ℝ)) /
    (2 * (self.leapfrogSteps : ℝ))) (div_pos (by linarith) (by linarith))).const_mul self.gamma
  rw [mul_one] at h
  exact h.congr (fun k => (gamma_t_steepness self hdt hL s k).symm)

theorem gamma_t_tendsto_neg (self : Self ℝ) (hdt : 0 < self.dt)
    (hL : 1 ≤ self.leapfrogSteps) (s : Nat) (hs : 2 * (s : Int) < self.leapfrogSteps) :
    Filter.Tendsto (fun k : ℝ => RAHMCSigmoid.gamma_t Real.exp { self with steepness := k } s)
      Filter.atTop (nhds (-self.gamma)) := by
  have hLr : (0 : ℝ) < (self.leapfrogSteps : ℝ) := by
    have : (1 : ℝ) ≤ (self.leapfrogSteps : ℝ) := by exact_mod_cast hL
    linarith
  have hc : 2 * (s : ℝ) < (self.leapfrogSteps : ℝ) := by exact_mod_cast hs
  have h := (sig_tendsto_neg ((2 * (s : ℝ) - (self.leapfrogSteps : ℝ)) /
    (2 * (self.leapfrogSteps : ℝ)))
    (div_neg_of_neg_of_pos (by linarith) (by linarith))).const_mul self.gamma
  rw [mul_neg_one] at h
  exact h.congr (fun k => (gamma_t_steepness self hdt hL s k).symm)

theorem gamma_t_middle (self : Self ℝ) (hdt : 0 < self.dt) (hL : 1 ≤ self.leapfrogSteps)
    (s : Nat) (hs : 2 * (s : Int) = self.leapfrogSteps) (k : ℝ) :
    RAHMCSigmoid.gamma_t Real.exp { self with steepness := k } s = 0 := by
  have hc : 2 * (s : ℝ) = (self.leapfrogSteps : ℝ) := by exact_mod_cast hs
  rw [gamma_t_steepness self hdt hL s k, hc]
  norm_num

theorem split_frictions_entry (self : Self K) (s : Nat)
    (hs : (s : Int) < self.leapfrogSteps) :
    (RAHMC.frictions self)[s]? =
      some (if (s : Int) < self.leapfrogSteps / 2 then -self.gamma else self.gamma) := by
  rw [split_frictions_eq]
  by_cases h : (s : Int) < self.leapfrogSteps / 2
  · rw [if_pos h, List.getElem?_append_left (by simp; omega)]
    rw [List.getElem?_replicate]
    simp
    omega
  · rw [if_neg h, List.getElem?_append_right (by simp; omega)]
    rw [List.getElem?_replicate]
    simp
    omega

/-- C15 as stated fails at the sub-step `s = floor(L/2)`, where the Split step uses
`+gamma`.  With `gamma = 2`, `dt = 1`: for `L = 2` the Sigmoid friction of sub-step 1 is
0 for every steepness, and for `L = 3` the Sigmoid friction of sub-step 1 tends to `-2`;
neither converges to the Split friction `+2`. -/
theorem sigmoid_limit_counterexample :
    ((RAHMC.frictions ({ frictionScenario ℝ with leapfrogSteps := 2 } : Self ℝ))[1]? =
        some 2 ∧
      ¬ Filter.Tendsto (fun k : ℝ => RAHMCSigmoid.gamma_t Real.exp
          { frictionScenario ℝ with leapfrogSteps := 2, steepness := k } 1)
        Filter.atTop (nhds 2)) ∧
    ((RAHMC.frictions ({ frictionScenario ℝ with leapfrogSteps := 3 } : Self ℝ))[1]? =
        some 2 ∧
      ¬ Filter.Tendsto (fun k : ℝ => RAHMCSigmoid.gamma_t Real.exp
          { frictionScenario ℝ with leapfrogSteps := 3, steepness := k } 1)
        Filter.atTop (nhds 2)) := by
  have hdt2 : 0 < ({ frictionScenario ℝ with leapfrogSteps := 2 } : Self ℝ).dt := by
    show (0 : ℝ) < 1
    norm_num
  have hdt3 : 0 < ({ frictionScenario ℝ with leapfrogSteps := 3 } : Self ℝ).dt := by
    show (0 : ℝ) < 1
    norm_num
  refine ⟨⟨?_, ?_⟩, ⟨?_, ?_⟩⟩
  · rw [split_frictions_entry _ 1 (by decide)]
    rfl
  · intro h
    have h0 : Filter.Tendsto (fun k : ℝ => RAHMCSigmoid.gamma_t Real.exp
        { frictionScenario ℝ with leapfrogSteps := 2, steepness := k } 1)
        Filter.atTop (nhds 0) :=
      tendsto_const_nhds.congr (fun k =>
        (gamma_t_middle { frictionScenario ℝ with leapfrogSteps := 2 } hdt2 (by decide) 1
          (by decide) k).symm)
    have e := tendsto_nhds_unique h h0
    norm_num at e
  · rw [split_frictions_entry _ 1 (by decide)]
    rfl
  · intro h
    have h0 := gamma_t_tendsto_neg { frictionScenario ℝ with leapfrogSteps := 3 } hdt3
      (by decide) 1 (by decide)
    have e := tendsto_nhds_unique h h0
    have hg : ({ frictionScenario ℝ with leapfrogSteps := 3 } : Self ℝ).gamma = 2 := rfl
    rw [hg] at e
    norm_num at e

/-- C15 (amended): for `dt > 0`, `leapfrogSteps = L >= 1` and every sub-step index `s` in
`0..L-1` other than `floor(L/2)`, the friction used by the RAHMC-Sigmoid step at
sub-step `s` converges, as the steepness tends to `+infinity`, to the friction used by
the RAHMC step at sub-step `s`: `-gamma` for `s < floor(L/2)`, `+gamma` for
`s > floor(L/2)`.  At `s = floor(L/2)` the RAHMC step uses `+gamma`, while the Sigmoid
friction is 0 for every steepness when `L` is even and converges to `-gamma` when `L` is
odd. -/
theorem sigmoid_limit (self : Self ℝ) (hdt : 0 < self.dt) (hL : 1 ≤ self.leapfrogSteps)
    (s : Nat) (hs : (s : Int) < self.leapfrogSteps) :
    ((s : Int) < self.leapfrogSteps / 2 →
      (RAHMC.frictions self)[s]? = some (-self.gamma) ∧
      Filter.Tendsto
        (fun k : ℝ => RAHMCSigmoid.gamma_t Real.exp { self with steepness := k } s)
        Filter.atTop (nhds (-self.gamma))) ∧
    (self.leapfrogSteps / 2 < (s : Int) →
      (RAHMC.frictions self)[s]? = some self.gamma ∧
      Filter.Tendsto
        (fun k : ℝ => RAHMCSigmoid.gamma_t Real.exp { self with steepness := k } s)
        Filter.atTop (nhds self.gamma)) ∧
    ((s : Int) = self.leapfrogSteps / 2 →
      (RAHMC.frictions self)[s]? = some self.gamma ∧
      (self.leapfrogSteps % 2 = 0 →
        ∀ k : ℝ, RAHMCSigmoid.gamma_t Real.exp { self with steepness := k } s = 0) ∧
      (self.leapfrogSteps % 2 = 1 →
        Filter.Tendsto
          (fun k : ℝ => RAHMCSigmoid.gamma_t Real.exp { self with steepness := k } s)
          Filter.atTop (nhds (-self.gamma)))) := by
  have he := split_frictions_entry self s hs
  refine ⟨fun h => ?_, fun h => ?_, fun h => ?_⟩
  · rw [if_pos h] at he
    exact ⟨he, gamma_t_tendsto_neg self hdt hL s (by omega)⟩
  · rw [if_neg (by omega)] at he
    exact ⟨he, gamma_t_tendsto_pos self hdt hL s (by omega)⟩
  · rw [if_neg (by omega)] at he
    exact ⟨he, fun h2 k => gamma_t_middle self hdt hL s (by omega) k,
      fun h2 => gamma_t_tendsto_neg self hdt hL s (by omega)⟩

/-- Witness of C15 (amended): the default configuration of RAHMC-Sigmoid.js at sub-step
30 of 40, where both schedules are attracting. -/
theorem sigmoid_limit_witness :
    0 < (RAHMCSigmoid.init (scenario ℝ)).dt ∧
    1 ≤ (RAHMCSigmoid.init (scenario ℝ)).leapfrogSteps ∧
    ((30 : Nat) : Int) < (RAHMCSigmoid.init (scenario ℝ)).leapfrogSteps ∧
    (RAHMCSigmoid.init (scenario ℝ)).leapfrogSteps / 2 < ((30 : Nat) : Int) ∧
    Filter.Tendsto
      (fun k : ℝ => RAHMCSigmoid.gamma_t Real.exp
        { RAHMCSigmoid.init (scenario ℝ) with steepness := k } 30)
      Filter.atTop (nhds (RAHMCSigmoid.init (scenario ℝ)).gamma) := by
  have hdt : 0 < (RAHMCSigmoid.init (scenario ℝ)).dt := by
    simp [RAHMCSigmoid.init]; norm_num
  exact ⟨hdt, by decide, by decide, by decide,
    ((sigmoid_limit (RAHMCSigmoid.init (scenario ℝ)) hdt (by decide) 30
      (by decide)).2.1 (by decide)).2⟩

/-! ## C14 -/

theorem split_stepExt_finite (exp : K → K) (self : Self K) (visualizer : Visualizer K)
    (p0 : List K) (u : K) :
    RAHMC.stepExt exp self (fun q => JSNum.fin (self.logDensity q)) visualizer p0 u =
      RAHMC.step exp self visualizer p0 u := by
  simp only [RAHMC.stepExt, RAHMC.step, JSNum.neg, JSNum.add, JSNum.exp, JSNum.lt,
    decide_eq_true_eq]

theorem sigmoid_stepExt_finite (exp : K → K) (self : Self K) (visualizer : Visualizer K)
    (p0 : List K) (u : K) :
    RAHMCSigmoid.stepExt exp self (fun q => JSNum.fin (self.logDensity q)) visualizer p0 u =
      RAHMCSigmoid.step exp self visualizer p0 u := by
  simp only [RAHMCSigmoid.stepExt, RAHMCSigmoid.step, JSNum.neg, JSNum.add, JSNum.exp,
    JSNum.lt, decide_eq_true_eq]

theorem accept_decision (e : K → K) (ld0 ldq : JSNum K) (n0 n u : K) (hu : 0 ≤ u) :
    (ldq = JSNum.negInf ∨ ldq = JSNum.nan ∨ ld0 = JSNum.nan ∨ ld0 = JSNum.posInf →
      JSNum.lt (JSNum.fin u) (JSNum.exp e (JSNum.add
        (JSNum.neg (JSNum.add (JSNum.neg ldq) (JSNum.fin n)))
        (JSNum.add (JSNum.neg ld0) (JSNum.fin n0)))) = false) ∧
    ((ldq = JSNum.posInf ∧ ld0 ≠ JSNum.posInf ∧ ld0 ≠ JSNum.nan) ∨
      (ld0 = JSNum.negInf ∧ ∃ x, ldq = JSNum.fin x) →
      JSNum.lt (JSNum.fin u) (JSNum.exp e (JSNum.add
        (JSNum.neg (JSNum.add (JSNum.neg ldq) (JSNum.fin n)))
        (JSNum.add (JSNum.neg ld0) (JSNum.fin n0)))) = true) := by
  have hu' : ¬ u < 0 := not_lt.mpr hu
  cases ld0 <;> cases ldq <;>
    simp [JSNum.neg, JSNum.add, JSNum.exp, JSNum.lt, hu']

/-- C14 as stated fails: a non-finite density does not always lead to rejection.  In the
scenario, when the chain's last state `[0]` has log-density `-Infinity` and the proposal
`[0.1]` a finite one, and when the proposal has log-density `Infinity`, `step` accepts
for the draw `u = 0.5`: the proposal `[0.1]` is appended, not `q0 = [0]`. -/
theorem nonfinite_counterexample :
    ((halfLineDensity ([0] : List ℝ) = JSNum.negInf) ∧
      RAHMC.stepExt Real.exp (scenario ℝ) halfLineDensity { queue := [] } [1] 0.5 =
        some ({ scenario ℝ with chain := [[0], [1 / 10]] },
          { queue := [Event.proposal [1 / 10] [[0], [1 / 10]] [1],
              Event.accept [1 / 10]] })) ∧
    ((spikeDensity ([1 / 10] : List ℝ) = JSNum.posInf) ∧
      RAHMC.stepExt Real.exp (scenario ℝ) spikeDensity { queue := [] } [1] 0.5 =
        some ({ scenario ℝ with chain := [[0], [1 / 10]] },
          { queue := [Event.proposal [1 / 10] [[0], [1 / 10]] [1],
              Event.accept [1 / 10]] })) := by
  have hc : (scenario ℝ).chain.getLast? = some [0] := rfl
  have hi := scenario_integrate Real.exp Real.exp_zero
  have a0 : halfLineDensity ([0] : List ℝ) = JSNum.negInf := by
    simp [halfLineDensity]
  have a1 : halfLineDensity ([1 / 10] : List ℝ) =
      JSNum.fin (-(Vec.norm2 ([1 / 10] : List ℝ)) / 2) := by
    simp [halfLineDensity]
  have b0 : spikeDensity ([0] : List ℝ) = JSNum.fin (-(Vec.norm2 ([0] : List ℝ)) / 2) := by
    simp [spikeDensity]
  have b1 : spikeDensity ([1 / 10] : List ℝ) = JSNum.posInf := by
    simp [spikeDensity]
  refine ⟨⟨a0, ?_⟩, ⟨b1, ?_⟩⟩
  · simp only [RAHMC.stepExt, hc, hi, a0, a1, JSNum.neg, JSNum.add, JSNum.exp, JSNum.lt,
      if_true, Vec.copy, List.nil_append, List.singleton_append]
    rfl
  · simp only [RAHMC.stepExt, hc, hi, b0, b1, JSNum.neg, JSNum.add, JSNum.exp, JSNum.lt,
      if_true, Vec.copy, List.nil_append, List.singleton_append]
    rfl

/-- C14 (amended): when a density evaluation in `step` returns a non-finite value, `step`
does not raise, in either variant, and appends `q` or `q0`.  The proposal is rejected,
the state appended being `q0`, when `logDensity(q)` is `-Infinity`, when either density
is `NaN` and when `logDensity(q0)` is `Infinity`: then `logAcceptRatio` is `-Infinity` or
`NaN`.  The proposal is accepted, the state appended being `q`, when `logDensity(q)` is
`Infinity` and `logDensity(q0)` is finite or `-Infinity`, and when `logDensity(q0)` is
`-Infinity` and `logDensity(q)` is finite: then `logAcceptRatio` is `Infinity`. -/
theorem nonfinite_density (exp : K → K) (self : Self K) (logDensity : List K → JSNum K)
    (visualizer : Visualizer K) (q0 p0 : List K) (u : K)
    (h : self.chain.getLast? = some q0) (hu : 0 ≤ u) :
    (let q := (RAHMC.integrate exp self q0 p0).1
     let trajectory := (RAHMC.integrate exp self q0 p0).2.2
     let accepted : Option (Self K × Visualizer K) :=
       some ({ self with chain := self.chain ++ [q] },
         { queue := visualizer.queue ++ [Event.proposal q trajectory p0, Event.accept q] })
     let rejected : Option (Self K × Visualizer K) :=
       some ({ self with chain := self.chain ++ [q0] },
         { queue := visualizer.queue ++ [Event.proposal q trajectory p0, Event.reject q] })
     (RAHMC.stepExt exp self logDensity visualizer p0 u = accepted ∨
       RAHMC.stepExt exp self logDensity visualizer p0 u = rejected) ∧
     (logDensity q = JSNum.negInf ∨ logDensity q = JSNum.nan ∨ logDensity q0 = JSNum.nan ∨
       logDensity q0 = JSNum.posInf →
       RAHMC.stepExt exp self logDensity visualizer p0 u = rejected) ∧
     ((logDensity q = JSNum.posInf ∧ logDensity q0 ≠ JSNum.posInf ∧
         logDensity q0 ≠ JSNum.nan) ∨
       (logDensity q0 = JSNum.negInf ∧ ∃ x, logDensity q = JSNum.fin x) →
       RAHMC.stepExt exp self logDensity visualizer p0 u = accepted)) ∧
    (let q := (RAHMCSigmoid.integrate exp self q0 p0).1
     let trajectory := (RAHMCSigmoid.integrate exp self q0 p0).2.2
     let accepted : Option (Self K × Visualizer K) :=
       some ({ self with chain := self.chain ++ [q] },
         { queue := visualizer.queue ++ [Event.proposal q trajectory p0, Event.accept q] })
     let rejected : Option (Self K × Visualizer K) :=
       some ({ self with chain := self.chain ++ [q0] },
         { queue := visualizer.queue ++ [Event.proposal q trajectory p0, Event.reject q] })
     (RAHMCSigmoid.stepExt exp self logDensity visualizer p0 u = accepted ∨
       RAHMCSigmoid.stepExt exp self logDensity visualizer p0 u = rejected) ∧
     (logDensity q = JSNum.negInf ∨ logDensity q = JSNum.nan ∨ logDensity q0 = JSNum.nan ∨
       logDensity q0 = JSNum.posInf →
       RAHMCSigmoid.stepExt exp self logDensity visualizer p0 u = rejected) ∧
     ((logDensity q = JSNum.posInf ∧ logDensity q0 ≠ JSNum.posInf ∧
         logDensity q0 ≠ JSNum.nan) ∨
       (logDensity q0 = JSNum.negInf ∧ ∃ x, logDensity q = JSNum.fin x) →
       RAHMCSigmoid.stepExt exp self logDensity visualizer p0 u = accepted)) := by
  refine ⟨?_, ?_⟩
  · intro q trajectory accepted rejected
    obtain ⟨hr, ha⟩ := accept_decision exp (logDensity q0) (logDensity q)
      (Vec.norm2 p0 / 2)
      (Vec.norm2 ((RAHMC.integrate exp self q0 p0).2.1.map (fun x => x * -1)) / 2) u hu
    have hacc : ∀ b : JSNum.lt (JSNum.fin u) (JSNum.exp exp (JSNum.add
        (JSNum.neg (JSNum.add (JSNum.neg (logDensity q))
          (JSNum.fin (Vec.norm2 ((RAHMC.integrate exp self q0 p0).2.1.map
            (fun x => x * -1)) / 2))))
        (JSNum.add (JSNum.neg (logDensity q0)) (JSNum.fin (Vec.norm2 p0 / 2))))) = true,
        RAHMC.stepExt exp self logDensity visualizer p0 u = accepted := by
      intro b
      simp only [RAHMC.stepExt, h, Vec.copy, List.append_assoc, List.singleton_append]
      rw [if_pos b]
    have hrej : ∀ b : JSNum.lt (JSNum.fin u) (JSNum.exp exp (JSNum.add
        (JSNum.neg (JSNum.add (JSNum.neg (logDensity q))
          (JSNum.fin (Vec.norm2 ((RAHMC.integrate exp self q0 p0).2.1.map
            (fun x => x * -1)) / 2))))
        (JSNum.add (JSNum.neg (logDensity q0)) (JSNum.fin (Vec.norm2 p0 / 2))))) = false,
        RAHMC.stepExt exp self logDensity visualizer p0 u = rejected := by
      intro b
      simp only [RAHMC.stepExt, h, Vec.copy, List.append_assoc, List.singleton_append]
      rw [if_neg (by rw [b]; exact Bool.false_ne_true)]
    refine ⟨?_, fun c => hrej (hr c), fun c => hacc (ha c)⟩
    cases hb : JSNum.lt (JSNum.fin u) (JSNum.exp exp (JSNum.add
        (JSNum.neg (JSNum.add (JSNum.neg (logDensity q))
          (JSNum.fin (Vec.norm2 ((RAHMC.integrate exp self q0 p0).2.1.map
            (fun x => x * -1)) / 2))))
        (JSNum.add (JSNum.neg (logDensity q0)) (JSNum.fin (Vec.norm2 p0 / 2)))))
    · exact Or.inr (hrej hb)
    · exact Or.inl (hacc hb)
  · intro q trajectory accepted rejected
    obtain ⟨hr, ha⟩ := accept_decision exp (logDensity q0) (logDensity q)
      (Vec.norm2 p0 / 2)
      (Vec.norm2 ((RAHMCSigmoid.integrate exp self q0 p0).2.1.map (fun x => x * -1)) / 2)
      u hu
    have hacc : ∀ b : JSNum.lt (JSNum.fin u) (JSNum.exp exp (JSNum.add
        (JSNum.neg (JSNum.add (JSNum.neg (logDensity q))
          (JSNum.fin (Vec.norm2 ((RAHMCSigmoid.integrate exp self q0 p0).2.1.map
            (fun x => x * -1)) / 2))))
        (JSNum.add (JSNum.neg (logDensity q0)) (JSNum.fin (Vec.norm2 p0 / 2))))) = true,
        RAHMCSigmoid.stepExt exp self logDensity visualizer p0 u = accepted := by
      intro b
      simp only [RAHMCSigmoid.stepExt, h, Vec.copy, List.append_assoc,
        List.singleton_append]
      rw [if_pos b]
    have hrej : ∀ b : JSNum.lt (JSNum.fin u) (JSNum.exp exp (JSNum.add
        (JSNum.neg (JSNum.add (JSNum.neg (logDensity q))
          (JSNum.fin (Vec.norm2 ((RAHMCSigmoid.integrate exp self q0 p0).2.1.map
            (fun x => x * -1)) / 2))))
        (JSNum.add (JSNum.neg (logDensity q0)) (JSNum.fin (Vec.norm2 p0 / 2))))) = false,
        RAHMCSigmoid.stepExt exp self logDensity visualizer p0 u = rejected := by
      intro b
      simp only [RAHMCSigmoid.stepExt, h, Vec.copy, List.append_assoc,
        List.singleton_append]
      rw [if_neg (by rw [b]; exact Bool.false_ne_true)]
    refine ⟨?_, fun c => hrej (hr c), fun c => hacc (ha c)⟩
    cases hb : JSNum.lt (JSNum.fin u) (JSNum.exp exp (JSNum.add
        (JSNum.neg (JSNum.add (JSNum.neg (logDensity q))
          (JSNum.fin (Vec.norm2 ((RAHMCSigmoid.integrate exp self q0 p0).2.1.map
            (fun x => x * -1)) / 2))))
        (JSNum.add (JSNum.neg (logDensity q0)) (JSNum.fin (Vec.norm2 p0 / 2)))))
    · exact Or.inr (hrej hb)
    · exact Or.inl (hacc hb)

/-- Witness of C14 (amended): the scenario with a target whose log-density is `-Infinity`
everywhere; the proposal `[0.1]` is rejected and `[0]` is appended. -/
theorem nonfinite_density_witness :
    (scenario ℝ).chain.getLast? = some [0] ∧ (0 : ℝ) ≤ 0.5 ∧
    RAHMC.stepExt Real.exp (scenario ℝ) (fun _ => JSNum.negInf) { queue := [] } [1] 0.5 =
      some ({ scenario ℝ with chain := (scenario ℝ).chain ++ [[0]] },
        { queue := [] ++ [Event.proposal [1 / 10] [[0], [1 / 10]] [1],
            Event.reject [1 / 10]] }) := by
  have h := (nonfinite_density Real.exp (scenario ℝ) (fun _ => JSNum.negInf)
    { queue := [] } [0] [1] 0.5 rfl (by norm_num)).1.2.1 (Or.inl rfl)
  simp only [scenario_integrate Real.exp Real.exp_zero] at h
  exact ⟨rfl, by norm_num, h⟩

end MCMC
